import Mathlib

/-!
Verification of the swarm-simulation repository.

Shallow embedding of the Python sources:
* `src/core/vector2d.py`   → `Vec2` and its operations
* `src/core/entity.py`     → `Entity`, `Entity.update`
Floating point is modelled by exact real arithmetic.
-/

namespace SwarmSim

/-- `Vector2D` from src/core/vector2d.py: a mutable 2-component float vector,
modelled as an immutable pair of reals. -/
structure Vec2 where
  x : ℝ
  y : ℝ

namespace Vec2

def zero : Vec2 := ⟨0, 0⟩

/-- `Vector2D.__add__` -/
def add (a b : Vec2) : Vec2 := ⟨a.x + b.x, a.y + b.y⟩

/-- `Vector2D.__sub__` -/
def sub (a b : Vec2) : Vec2 := ⟨a.x - b.x, a.y - b.y⟩

/-- `Vector2D.__mul__` (scalar multiplication) -/
def smul (v : Vec2) (s : ℝ) : Vec2 := ⟨v.x * s, v.y * s⟩

/-- Raw componentwise scalar division, as used inside `normalize`/`limit`
(`Vector2D(self.x / mag, ...)`).  The guarded `__truediv__` is `vdiv` below. -/
noncomputable def sdiv (v : Vec2) (s : ℝ) : Vec2 := ⟨v.x / s, v.y / s⟩

/-- `Vector2D.magnitude`: `sqrt(x*x + y*y)` -/
noncomputable def magnitude (v : Vec2) : ℝ := Real.sqrt (v.x * v.x + v.y * v.y)

/-- `Vector2D.magnitude_squared` -/
noncomputable def magnitudeSq (v : Vec2) : ℝ := v.x * v.x + v.y * v.y

/-- `Vector2D.normalize`: returns the zero vector when the magnitude is zero. -/
noncomputable def normalize (v : Vec2) : Vec2 :=
  let mag := v.magnitude
  if mag = 0 then ⟨0, 0⟩ else ⟨v.x / mag, v.y / mag⟩

/-- `Vector2D.limit`: cap the magnitude at `max_magnitude`. -/
noncomputable def limit (v : Vec2) (max_magnitude : ℝ) : Vec2 :=
  let mag_sq := v.magnitudeSq
  let max_sq := max_magnitude * max_magnitude
  if mag_sq > max_sq then
    let mag := Real.sqrt mag_sq
    ⟨v.x / mag * max_magnitude, v.y / mag * max_magnitude⟩
  else v

/-- `Vector2D.distance`: `sqrt(dx*dx + dy*dy)` -/
noncomputable def distance (a b : Vec2) : ℝ :=
  Real.sqrt ((a.x - b.x) * (a.x - b.x) + (a.y - b.y) * (a.y - b.y))

@[simp] lemma magnitude_zero : Vec2.zero.magnitude = 0 := by
  simp [Vec2.magnitude, Vec2.zero]

lemma magnitudeSq_nonneg (v : Vec2) : 0 ≤ v.magnitudeSq := by
  unfold magnitudeSq; nlinarith [sq_nonneg v.x, sq_nonneg v.y]

/-- Core clamp property of `Vector2D.limit`. -/
lemma magnitude_limit_le (v : Vec2) (M : ℝ) (hM : 0 ≤ M) :
    (v.limit M).magnitude ≤ M := by
  unfold limit
  by_cases h : v.magnitudeSq > M * M
  · have hsq : 0 ≤ v.magnitudeSq := v.magnitudeSq_nonneg
    have hpos : 0 < v.magnitudeSq := lt_of_le_of_lt (mul_nonneg hM hM) h
    have hrt : 0 < Real.sqrt v.magnitudeSq := Real.sqrt_pos.mpr hpos
    have hmm : Real.sqrt v.magnitudeSq * Real.sqrt v.magnitudeSq = v.magnitudeSq :=
      Real.mul_self_sqrt hsq
    simp only [h, if_true, magnitude]
    have hexp :
        v.x / Real.sqrt v.magnitudeSq * M * (v.x / Real.sqrt v.magnitudeSq * M) +
          v.y / Real.sqrt v.magnitudeSq * M * (v.y / Real.sqrt v.magnitudeSq * M) = M * M := by
      have hne : Real.sqrt v.magnitudeSq ≠ 0 := ne_of_gt hrt
      field_simp
      unfold magnitudeSq at hmm ⊢
      nlinarith [hmm]
    rw [hexp, Real.sqrt_mul_self hM]
  · have h' : v.magnitudeSq ≤ M * M := not_lt.mp h
    simp only [h, if_false, magnitude]
    calc Real.sqrt (v.x * v.x + v.y * v.y) ≤ Real.sqrt (M * M) := by
          apply Real.sqrt_le_sqrt
          unfold magnitudeSq at h'; linarith
      _ = M := Real.sqrt_mul_self hM

end Vec2

/-- `Entity` from src/core/entity.py (the physics-relevant fields; the global
id counter is irrelevant to the claims and omitted). -/
structure Entity where
  position : Vec2
  velocity : Vec2
  acceleration : Vec2
  radius : ℝ
  max_speed : ℝ
  max_force : ℝ
  mass : ℝ
  alive : Bool
  creation_time : ℝ

namespace Entity

/-- `Entity.DRAG_COEFFICIENT = 0.02` -/
noncomputable def DRAG_COEFFICIENT : ℝ := 0.02

/-- `Entity.apply_force`: `acceleration += force / mass`.  Every entity the
program constructs has `mass = 1.0`, so the division never hits zero. -/
noncomputable def applyForce (e : Entity) (force : Vec2) : Entity :=
  { e with acceleration := e.acceleration.add (force.sdiv e.mass) }

/-- `Entity.apply_drag` -/
noncomputable def applyDrag (e : Entity) : Entity :=
  let speed := e.velocity.magnitude
  if speed > 0 then
    let drag_magnitude := DRAG_COEFFICIENT * speed * speed
    let drag_force := (e.velocity.normalize).smul (-drag_magnitude)
    e.applyForce drag_force
  else e

/-- `Entity.update`: physics integration step. -/
noncomputable def update (e : Entity) (delta_time : ℝ) : Entity :=
  if e.alive = true then
    let e1 := e.applyDrag
    let e2 := { e1 with velocity := e1.velocity.add (e1.acceleration.smul delta_time) }
    let e3 := { e2 with velocity := e2.velocity.limit e2.max_speed }
    let e4 := { e3 with position := e3.position.add (e3.velocity.smul delta_time) }
    let e5 := { e4 with acceleration := Vec2.zero }
    { e5 with creation_time := e5.creation_time + delta_time }
  else e

@[simp] lemma applyDrag_velocity (e : Entity) : (e.applyDrag).velocity = e.velocity := by
  unfold applyDrag applyForce
  by_cases h : e.velocity.magnitude > 0 <;> simp [h]

@[simp] lemma applyDrag_position (e : Entity) : (e.applyDrag).position = e.position := by
  unfold applyDrag applyForce
  by_cases h : e.velocity.magnitude > 0 <;> simp [h]

@[simp] lemma applyDrag_max_speed (e : Entity) : (e.applyDrag).max_speed = e.max_speed := by
  unfold applyDrag applyForce
  by_cases h : e.velocity.magnitude > 0 <;> simp [h]

@[simp] lemma applyDrag_creation_time (e : Entity) :
    (e.applyDrag).creation_time = e.creation_time := by
  unfold applyDrag applyForce
  by_cases h : e.velocity.magnitude > 0 <;> simp [h]

end Entity

end SwarmSim

namespace SwarmSim

/-- A concrete entity (the constructor defaults of `Entity.__init__`). -/
noncomputable def entity0 : Entity :=
  { position := Vec2.zero, velocity := Vec2.zero, acceleration := Vec2.zero,
    radius := 5, max_speed := 300, max_force := 100, mass := 1,
    alive := true, creation_time := 0 }

/-- C1: after `Entity.update(delta_time)`, the velocity magnitude is at most
`max_speed`; the step clamps velocity, integrates position with the clamped
velocity, resets acceleration to zero, advances `creation_time` by
`delta_time`, and is a no-op when the entity is not alive. -/
theorem c1_entity_update_spec (e : Entity) (dt : ℝ) (hms : 0 ≤ e.max_speed) :
    (e.alive = false → e.update dt = e) ∧
    (e.alive = true →
      (e.update dt).velocity.magnitude ≤ e.max_speed ∧
      (e.update dt).velocity =
        ((e.applyDrag).velocity.add ((e.applyDrag).acceleration.smul dt)).limit e.max_speed ∧
      (e.update dt).acceleration = Vec2.zero ∧
      (e.update dt).creation_time = e.creation_time + dt ∧
      (e.update dt).position = e.position.add (((e.update dt).velocity).smul dt)) := by
  constructor
  · intro h
    unfold Entity.update
    simp [h]
  · intro h
    unfold Entity.update
    simp only [h, if_true, Entity.applyDrag_velocity, Entity.applyDrag_position,
      Entity.applyDrag_max_speed, Entity.applyDrag_creation_time]
    refine ⟨?_, ?_, ?_, ?_, ?_⟩
    · exact Vec2.magnitude_limit_le _ _ hms
    all_goals trivial

/-- Witness for C1 at the default-constructed entity with `dt = 1`. -/
theorem c1_entity_update_spec_witness :
    (entity0.update 1).velocity.magnitude ≤ entity0.max_speed :=
  ((c1_entity_update_spec entity0 1 (by norm_num [entity0])).2 rfl).1

/-!
`SwarmAgent` from src/swarm/swarm_agent.py: the fields read or written by
`update_energy`, `process_messages`, `is_alive` and the controller's pruning.
The `target` field only matters through identity/`is None` tests here, so it
is modelled as an optional target id.
-/

structure SwarmAgent where
  velocity : Vec2
  max_speed : ℝ
  state : String
  state_timer : ℝ
  aggressive : Bool
  aggressive_timeout : ℝ
  target : Option ℕ
  attack_priority : ℤ
  energy : ℝ
  max_energy : ℝ
  alive : Bool

namespace SwarmAgent

/-- `SwarmAgent.update_energy(delta_time)` -/
noncomputable def update_energy (a : SwarmAgent) (delta_time : ℝ) : SwarmAgent :=
  let a1 := { a with state_timer := a.state_timer + delta_time }
  let a2 :=
    if a1.aggressive_timeout > 0 then
      { a1 with aggressive_timeout := a1.aggressive_timeout - delta_time }
    else if a1.aggressive = true ∧ a1.target = none then
      { a1 with aggressive := false, attack_priority := 0, state := "idle",
                state_timer := 0 }
    else a1
  let speed := a2.velocity.magnitude
  let normalized_speed := speed / max 1 a2.max_speed
  let energy_drain := normalized_speed * delta_time * 5
  let energy_drain2 := if a2.state = "attacking" then energy_drain * 2 else energy_drain
  let a3 := { a2 with energy := max 0 (a2.energy - energy_drain2) }
  if a3.state = "idle" then
    { a3 with energy := min a3.max_energy (a3.energy + delta_time * 10) }
  else a3

/-- `SwarmAgent.is_alive()` -/
noncomputable def is_alive (a : SwarmAgent) : Bool :=
  a.alive && decide (a.energy > 0)

end SwarmAgent

/-- Bounds for the two shapes the post-update energy can take. -/
lemma energy_expr_bounds (me E d dt : ℝ) (hE0 : 0 ≤ E) (hE1 : E ≤ me)
    (hd : 0 ≤ d) (hdt : 0 ≤ dt) :
    (0 ≤ max 0 (E - d) ∧ max 0 (E - d) ≤ me) ∧
    (0 ≤ min me (max 0 (E - d) + dt * 10) ∧ min me (max 0 (E - d) + dt * 10) ≤ me) := by
  have hme : 0 ≤ me := le_trans hE0 hE1
  refine ⟨⟨le_max_left _ _, max_le hme (by linarith)⟩,
          ⟨le_min hme ?_, min_le_left _ _⟩⟩
  have := le_max_left (0 : ℝ) (E - d)
  nlinarith

lemma update_energy_max_energy (a : SwarmAgent) (dt : ℝ) :
    (a.update_energy dt).max_energy = a.max_energy := by
  simp only [SwarmAgent.update_energy]
  split_ifs <;> rfl

/-- One `update_energy` tick keeps `energy` within `[0, max_energy]`. -/
lemma update_energy_step_bounds (a : SwarmAgent) (dt : ℝ) (hdt : 0 ≤ dt)
    (h0 : 0 ≤ a.energy) (h1 : a.energy ≤ a.max_energy) :
    0 ≤ (a.update_energy dt).energy ∧ (a.update_energy dt).energy ≤ a.max_energy := by
  have hmax : (0:ℝ) < max 1 a.max_speed := lt_of_lt_of_le one_pos (le_max_left _ _)
  have hs : 0 ≤ a.velocity.magnitude := Real.sqrt_nonneg _
  have hd : 0 ≤ a.velocity.magnitude / max 1 a.max_speed * dt * 5 := by
    apply mul_nonneg (mul_nonneg (div_nonneg hs hmax.le) hdt); norm_num
  have hd2 : 0 ≤ a.velocity.magnitude / max 1 a.max_speed * dt * 5 * 2 := by linarith
  simp only [SwarmAgent.update_energy]
  split_ifs <;>
    first
      | exact (energy_expr_bounds a.max_energy a.energy _ dt h0 h1 hd2 hdt).2
      | exact (energy_expr_bounds a.max_energy a.energy _ dt h0 h1 hd2 hdt).1
      | exact (energy_expr_bounds a.max_energy a.energy _ dt h0 h1 hd hdt).2
      | exact (energy_expr_bounds a.max_energy a.energy _ dt h0 h1 hd hdt).1

/-- C4: over any sequence of `update_energy(delta_time)` calls with
non-negative `delta_time`, energy stays within `[0, max_energy]`: drain is
floored at 0 and idle recovery is capped at `max_energy`. -/
theorem c4_energy_bounds (a : SwarmAgent) (dts : List ℝ)
    (h0 : 0 ≤ a.energy) (h1 : a.energy ≤ a.max_energy)
    (hdts : ∀ dt ∈ dts, 0 ≤ dt) :
    0 ≤ (dts.foldl SwarmAgent.update_energy a).energy ∧
    (dts.foldl SwarmAgent.update_energy a).energy ≤
      (dts.foldl SwarmAgent.update_energy a).max_energy := by
  induction dts generalizing a with
  | nil => exact ⟨h0, h1⟩
  | cons dt rest ih =>
    have hdt : 0 ≤ dt := hdts dt (by simp)
    have hstep := update_energy_step_bounds a dt hdt h0 h1
    have hme := update_energy_max_energy a dt
    exact ih (a.update_energy dt) hstep.1 (by rw [hme]; exact hstep.2)
      (fun d hdmem => hdts d (by simp [hdmem]))

/-- A concrete swarm agent (constructor defaults of `SwarmAgent.__init__`,
with the generic `Entity` physics defaults). -/
noncomputable def agent0 : SwarmAgent :=
  { velocity := Vec2.zero, max_speed := 300, state := "idle", state_timer := 0,
    aggressive := false, aggressive_timeout := 0, target := none,
    attack_priority := 0, energy := 100, max_energy := 100, alive := true }

/-- Witness for C4: two one-second ticks on a default agent. -/
theorem c4_energy_bounds_witness :
    0 ≤ ([1, 1].foldl SwarmAgent.update_energy agent0).energy ∧
    ([1, 1].foldl SwarmAgent.update_energy agent0).energy ≤
      ([1, 1].foldl SwarmAgent.update_energy agent0).max_energy :=
  c4_energy_bounds agent0 [1, 1] (by norm_num [agent0]) (by norm_num [agent0])
    (by intro dt hdt; simp at hdt; simp [hdt])

/-- While the timeout is still positive, `update_energy` only decrements it;
the aggression fields and everything the decrement depends on are unchanged. -/
lemma update_energy_proj_pos (a : SwarmAgent) (dt : ℝ) (h : a.aggressive_timeout > 0) :
    (a.update_energy dt).aggressive = a.aggressive ∧
    (a.update_energy dt).state = a.state ∧
    (a.update_energy dt).target = a.target ∧
    (a.update_energy dt).velocity = a.velocity ∧
    (a.update_energy dt).aggressive_timeout = a.aggressive_timeout - dt := by
  simp only [SwarmAgent.update_energy]
  split_ifs <;> simp_all

/-- Once the timeout is non-positive, the next tick on an aggressive,
target-less agent clears aggression and reverts to idle. -/
lemma update_energy_clears (a : SwarmAgent) (dt : ℝ) (h : ¬ a.aggressive_timeout > 0)
    (hag : a.aggressive = true) (ht : a.target = none) :
    (a.update_energy dt).aggressive = false ∧
    (a.update_energy dt).attack_priority = 0 ∧
    (a.update_energy dt).state = "idle" := by
  simp only [SwarmAgent.update_energy]
  split_ifs <;> simp_all

/-- The scenario agent of the claim: aggressive, 25-second timeout, no
target, standing still (a `Pod`'s `max_speed` is 180). -/
noncomputable def agentA : SwarmAgent :=
  { velocity := Vec2.zero, max_speed := 180, state := "attacking", state_timer := 0,
    aggressive := true, aggressive_timeout := 25, target := none,
    attack_priority := 8, energy := 100, max_energy := 100, alive := true }

lemma agentA_iter (n : ℕ) (hn : n ≤ 25) :
    ((fun s : SwarmAgent => s.update_energy 1)^[n] agentA).aggressive = true ∧
    ((fun s : SwarmAgent => s.update_energy 1)^[n] agentA).state = "attacking" ∧
    ((fun s : SwarmAgent => s.update_energy 1)^[n] agentA).target = none ∧
    ((fun s : SwarmAgent => s.update_energy 1)^[n] agentA).aggressive_timeout = 25 - n := by
  induction n with
  | zero => simp [agentA]
  | succ k ih =>
    have hk : k ≤ 25 := Nat.le_of_succ_le hn
    obtain ⟨hag, hst, htg, hto⟩ := ih hk
    have hpos : ((fun s : SwarmAgent => s.update_energy 1)^[k] agentA).aggressive_timeout > 0 := by
      rw [hto]
      have : (k : ℝ) ≤ 24 := by exact_mod_cast Nat.lt_succ_iff.mp hn
      linarith
    have hproj := update_energy_proj_pos _ 1 hpos
    rw [Function.iterate_succ_apply']
    refine ⟨by rw [hproj.1, hag], by rw [hproj.2.1, hst], by rw [hproj.2.2.1, htg], ?_⟩
    rw [hproj.2.2.2.2, hto]
    push_cast
    ring

/-- C6: `aggressive_timeout` never increases across `update_energy` ticks;
once it is non-positive with no target assigned, the next tick clears
aggression, zeroes `attack_priority` and reverts the state to idle; and the
concrete scenario (aggressive, timeout 25 s, no target, 26 one-second ticks)
ends with `aggressive = false` and `state = "idle"`. -/
theorem c6_aggression_timeout (a : SwarmAgent) (dt : ℝ) (hdt : 0 ≤ dt) :
    (a.update_energy dt).aggressive_timeout ≤ a.aggressive_timeout ∧
    (a.aggressive_timeout ≤ 0 → a.aggressive = true → a.target = none →
      (a.update_energy dt).aggressive = false ∧
      (a.update_energy dt).attack_priority = 0 ∧
      (a.update_energy dt).state = "idle") ∧
    ((fun s : SwarmAgent => s.update_energy 1)^[26] agentA).aggressive = false ∧
    ((fun s : SwarmAgent => s.update_energy 1)^[26] agentA).state = "idle" := by
  refine ⟨?_, ?_, ?_⟩
  · simp only [SwarmAgent.update_energy]
    split_ifs <;> simp_all
  · intro hto hag ht
    exact update_energy_clears a dt (by linarith) hag ht
  · obtain ⟨hag, _hst, htg, hto⟩ := agentA_iter 25 le_rfl
    have hnot : ¬ ((fun s : SwarmAgent => s.update_energy 1)^[25] agentA).aggressive_timeout > 0 := by
      rw [hto]; norm_num
    have hclear := update_energy_clears _ 1 hnot hag htg
    rw [show (26 : ℕ) = 25 + 1 from rfl, Function.iterate_succ_apply']
    exact ⟨hclear.1, hclear.2.2⟩

/-- Witness for C6 at the scenario agent with `dt = 1`. -/
theorem c6_aggression_timeout_witness :
    (agentA.update_energy 1).aggressive_timeout ≤ agentA.aggressive_timeout :=
  (c6_aggression_timeout agentA 1 (by norm_num)).1

/-!
`SwarmController` from src/swarm/swarm_controller.py: the three species
populations.  Both `remove_dead_agents` and the end-of-frame pruning in
`_update_drone_swarm` / `_update_pod_swarm` / `_update_bot_swarm` keep
exactly the agents whose `alive` flag is set
(`[agent for agent in ... if agent.alive]`).
-/

structure SwarmController where
  drone : List SwarmAgent
  pod : List SwarmAgent
  bot : List SwarmAgent

/-- The pruning comprehension `[a for a in swarm if a.alive]`. -/
def pruneAlive (l : List SwarmAgent) : List SwarmAgent :=
  l.filter (fun a => a.alive)

/-- `SwarmController.remove_dead_agents` -/
def removeDeadAgents (c : SwarmController) : SwarmController :=
  { drone := pruneAlive c.drone, pod := pruneAlive c.pod, bot := pruneAlive c.bot }

/-- An agent that is out of energy but still has its `alive` flag set. -/
noncomputable def agentDrained : SwarmAgent := { agentA with energy := 0 }

/-- C7, counterexample: pruning keys on the `alive` flag only.  A pod with
`alive = true` and `energy = 0` survives `remove_dead_agents`, although the
claim says `energy ≤ 0` is an equivalent terminal condition for pruning
(`is_alive()` would already report it dead). -/
theorem c7_counterexample :
    agentDrained ∈ (removeDeadAgents ⟨[], [agentDrained], []⟩).pod ∧
    ¬ agentDrained.energy > 0 ∧
    agentDrained.is_alive = false := by
  refine ⟨?_, ?_, ?_⟩
  · simp [removeDeadAgents, pruneAlive, agentDrained, agentA]
  · simp [agentDrained, agentA]
  · simp [SwarmAgent.is_alive, agentDrained, agentA]

/-- C7, amended: after pruning, an agent is present in a species population
exactly when it was there before and its `alive` flag is true; `energy ≤ 0`
by itself does not remove an agent (it only makes `is_alive()` false). -/
theorem c7_prune_amended (c : SwarmController) (a : SwarmAgent) :
    (a ∈ (removeDeadAgents c).drone ↔ a ∈ c.drone ∧ a.alive = true) ∧
    (a ∈ (removeDeadAgents c).pod ↔ a ∈ c.pod ∧ a.alive = true) ∧
    (a ∈ (removeDeadAgents c).bot ↔ a ∈ c.bot ∧ a.alive = true) := by
  refine ⟨?_, ?_, ?_⟩ <;> simp [removeDeadAgents, pruneAlive, List.mem_filter]

/-!
`SteeringBehaviors` from src/intelligence/behaviors.py.  Division sites that
can raise in Python (`Vector2D.__truediv__` raises ValueError on a zero
scalar, float `/` raises ZeroDivisionError) are modelled in `Except`;
`normalize` is internally guarded and total.  A neighbor entry is the pair
(neighbor position, distance) — `separation` reads nothing else.
-/

/-- `Vector2D.__truediv__`: raises on a zero scalar. -/
noncomputable def vdiv (v : Vec2) (s : ℝ) : Except String Vec2 :=
  if s = 0 then Except.error "Cannot divide by zero" else Except.ok (v.sdiv s)

/-- Python float division: raises on a zero divisor. -/
noncomputable def fdiv (a b : ℝ) : Except String ℝ :=
  if b = 0 then Except.error "float division by zero" else Except.ok (a / b)

namespace SteeringBehaviors

/-- `SteeringBehaviors.seek` -/
noncomputable def seek (position target_position : Vec2) (max_speed : ℝ) : Vec2 :=
  let desired := target_position.sub position
  let distance := desired.magnitude
  if distance = 0 then ⟨0, 0⟩
  else (desired.normalize).smul max_speed

/-- `SteeringBehaviors.flee` -/
noncomputable def flee (position threat_position : Vec2) (max_speed : ℝ) : Vec2 :=
  let desired := position.sub threat_position
  let distance := desired.magnitude
  if distance = 0 then ⟨0, 0⟩
  else (desired.normalize).smul max_speed

/-- `SteeringBehaviors.arrive` -/
noncomputable def arrive (position velocity target_position : Vec2)
    (slow_radius max_speed : ℝ) : Except String Vec2 :=
  let desired := target_position.sub position
  let distance := desired.magnitude
  if distance = 0 then Except.ok (Vec2.zero.sub velocity)
  else
    match (if distance < slow_radius then
            (match fdiv distance slow_radius with
             | Except.error e => Except.error e
             | Except.ok q => Except.ok (max_speed * q))
          else Except.ok max_speed) with
    | Except.error e => Except.error e
    | Except.ok speed => Except.ok (((desired.normalize).smul speed).sub velocity)

/-- The neighbor loop of `SteeringBehaviors.separation`, accumulating the
repulsion sum and the counted neighbors. -/
noncomputable def sepLoop (position : Vec2) (perception_radius : ℝ) :
    List (Vec2 × ℝ) → Vec2 → ℕ → Except String (Vec2 × ℕ)
  | [], steer, count => Except.ok (steer, count)
  | (npos, dist) :: rest, steer, count =>
    if dist > 0 ∧ dist < perception_radius then
      match vdiv ((position.sub npos).normalize) (dist + 0.1) with
      | Except.error e => Except.error e
      | Except.ok diff2 => sepLoop position perception_radius rest (steer.add diff2) (count + 1)
    else sepLoop position perception_radius rest steer count

/-- `SteeringBehaviors.separation` -/
noncomputable def separation (position : Vec2) (neighbors : List (Vec2 × ℝ))
    (perception_radius max_force : ℝ) : Except String Vec2 :=
  match sepLoop position perception_radius neighbors Vec2.zero 0 with
  | Except.error e => Except.error e
  | Except.ok (steer, count) =>
    match (if count > 0 then vdiv steer (count : ℝ) else Except.ok steer) with
    | Except.error e => Except.error e
    | Except.ok steer2 =>
      if steer2.magnitude > 0 then Except.ok ((steer2.normalize).smul max_force)
      else Except.ok steer2

end SteeringBehaviors

lemma sepLoop_ok (position : Vec2) (pr : ℝ) (l : List (Vec2 × ℝ)) (steer : Vec2) (count : ℕ) :
    ∃ p, SteeringBehaviors.sepLoop position pr l steer count = Except.ok p := by
  induction l generalizing steer count with
  | nil => exact ⟨(steer, count), rfl⟩
  | cons nb rest ih =>
    obtain ⟨npos, dist⟩ := nb
    by_cases h : dist > 0 ∧ dist < pr
    · have hne : dist + 0.1 ≠ 0 := by
        have := h.1; intro hc; norm_num at hc; linarith
      simp only [SteeringBehaviors.sepLoop, h, if_true, vdiv, hne, if_neg, if_false]
      exact ih _ _
    · simp only [SteeringBehaviors.sepLoop, h, if_false]
      exact ih _ _

lemma sepLoop_skips_nonpos (position : Vec2) (pr : ℝ) (l : List (Vec2 × ℝ))
    (steer : Vec2) (count : ℕ) :
    SteeringBehaviors.sepLoop position pr l steer count =
      SteeringBehaviors.sepLoop position pr (l.filter fun nb => decide (nb.2 > 0)) steer count := by
  induction l generalizing steer count with
  | nil => rfl
  | cons nb rest ih =>
    obtain ⟨npos, dist⟩ := nb
    by_cases hpos : dist > 0
    · rw [List.filter_cons_of_pos (by simpa using hpos)]
      simp only [SteeringBehaviors.sepLoop]
      split_ifs with h
      · cases hv : vdiv ((position.sub npos).normalize) (dist + 0.1) with
        | error e => rfl
        | ok diff2 => exact ih _ _
      · exact ih _ _
    · rw [List.filter_cons_of_neg (by simpa using hpos)]
      simp only [SteeringBehaviors.sepLoop]
      rw [if_neg (fun hc : dist > 0 ∧ dist < pr => hpos hc.1)]
      exact ih _ _

/-- C8: the steering behaviors special-case zero distances and magnitudes:
`seek`/`flee` return the zero vector when the two positions coincide,
`normalize` of a zero-magnitude vector is the zero vector, and `arrive` and
`separation` never raise on any input (`separation` skips zero-distance
neighbors, so its result equals that on the neighbor list with non-positive
distances removed). -/
theorem c8_zero_guards :
    (∀ (p : Vec2) (m : ℝ), SteeringBehaviors.seek p p m = Vec2.zero) ∧
    (∀ (p : Vec2) (m : ℝ), SteeringBehaviors.flee p p m = Vec2.zero) ∧
    (∀ v : Vec2, v.magnitude = 0 → v.normalize = Vec2.zero) ∧
    (∀ (p v tp : Vec2) (sr m : ℝ), ∃ w, SteeringBehaviors.arrive p v tp sr m = Except.ok w) ∧
    (∀ (p : Vec2) (ns : List (Vec2 × ℝ)) (pr mf : ℝ),
      (∃ w, SteeringBehaviors.separation p ns pr mf = Except.ok w) ∧
      SteeringBehaviors.separation p ns pr mf =
        SteeringBehaviors.separation p (ns.filter fun nb => decide (nb.2 > 0)) pr mf) := by
  refine ⟨?_, ?_, ?_, ?_, ?_⟩
  · intro p m
    simp [SteeringBehaviors.seek, Vec2.sub, Vec2.magnitude, Vec2.zero]
  · intro p m
    simp [SteeringBehaviors.flee, Vec2.sub, Vec2.magnitude, Vec2.zero]
  · intro v hv
    simp [Vec2.normalize, hv, Vec2.zero]
  · intro p v tp sr m
    by_cases h0 : (tp.sub p).magnitude = 0
    · exact ⟨Vec2.zero.sub v, by simp [SteeringBehaviors.arrive, h0]⟩
    · by_cases hlt : (tp.sub p).magnitude < sr
      · have hsr : sr ≠ 0 := by
          have hge : 0 ≤ (tp.sub p).magnitude := Real.sqrt_nonneg _
          intro hc; rw [hc] at hlt; linarith
        exact ⟨((tp.sub p).normalize.smul (m * ((tp.sub p).magnitude / sr))).sub v,
          by simp [SteeringBehaviors.arrive, h0, hlt, fdiv, hsr]⟩
      · exact ⟨((tp.sub p).normalize.smul m).sub v,
          by simp [SteeringBehaviors.arrive, h0, hlt]⟩
  · intro p ns pr mf
    constructor
    · obtain ⟨⟨steer, count⟩, hok⟩ := sepLoop_ok p pr ns Vec2.zero 0
      by_cases hc : count > 0
      · have hne : (count : ℝ) ≠ 0 := by
          exact_mod_cast Nat.pos_iff_ne_zero.mp hc
        simp only [SteeringBehaviors.separation, hok, hc, if_true, vdiv, hne, if_neg, if_false]
        by_cases hm : (steer.sdiv (count : ℝ)).magnitude > 0 <;> simp [hm]
      · simp only [SteeringBehaviors.separation, hok, hc, if_false]
        by_cases hm : steer.magnitude > 0 <;> simp [hm]
    · simp only [SteeringBehaviors.separation]
      rw [← sepLoop_skips_nonpos]

/-!
`PheromoneMap` from src/intelligence/pheromone.py and `SignalNetworkMap`
from src/intelligence/signal_network.py.  Cell strengths are float32 in the
source, modelled as exact rationals.  The gradient query works on one
channel grid, indexed `grid[row, col]` with explicit bounds checks; the
direction triples below are the `directions` list of `get_food_gradient` /
`get_signal_gradient` in scan order.
-/

/-- The `directions` list: `(dx, dy, Vector2D direction)` in scan order. -/
noncomputable def gradDirections : List (ℤ × ℤ × Vec2) :=
  [(0, -1, ⟨0, -1⟩), (0, 1, ⟨0, 1⟩), (-1, 0, ⟨-1, 0⟩), (1, 0, ⟨1, 0⟩)]

/-- The neighbor scan loop of the gradient query: running
`(max_strength, best_dir)` over the direction list. -/
noncomputable def gradLoop (g : ℤ → ℤ → ℚ) (cols rows x y : ℤ) :
    List (ℤ × ℤ × Vec2) → ℚ × Vec2 → ℚ × Vec2
  | [], acc => acc
  | (dx, dy, dir) :: rest, (maxS, best) =>
    let nx := x + dx
    let ny := y + dy
    if 0 ≤ nx ∧ nx < cols ∧ 0 ≤ ny ∧ ny < rows then
      if g ny nx > maxS then gradLoop g cols rows x y rest (g ny nx, dir)
      else gradLoop g cols rows x y rest (maxS, best)
    else gradLoop g cols rows x y rest (maxS, best)

/-- `PheromoneMap.get_food_gradient`, at grid-coordinate level (the center
cell `(x, y)` is the clamped `get_grid_pos` of the query position). -/
noncomputable def get_food_gradient (g : ℤ → ℤ → ℚ) (cols rows x y : ℤ) : Vec2 :=
  (gradLoop g cols rows x y gradDirections (g y x, Vec2.zero)).2

/-- `SignalNetworkMap.get_signal_gradient`: the identical scan over the
`path_signals` channel. -/
noncomputable def get_signal_gradient (g : ℤ → ℤ → ℚ) (cols rows x y : ℤ) : Vec2 :=
  (gradLoop g cols rows x y gradDirections (g y x, Vec2.zero)).2

/-- A 3×3 channel grid: strength 1 in the cell above the center, 2 below. -/
noncomputable def gradGrid0 : ℤ → ℤ → ℚ := fun yy xx =>
  if yy = 0 ∧ xx = 1 then 1 else if yy = 2 ∧ xx = 1 then 2 else 0

/-- C9, counterexample: at the center of `gradGrid0` the first neighbor in
scan order that is strictly greater than the center is the one above
(direction `(0, -1)`), but the scan keeps a running maximum and returns the
direction of the below neighbor `(0, 1)`, whose strength 2 beats 1. -/
theorem c9_gradient_counterexample :
    get_food_gradient gradGrid0 3 3 1 1 = (⟨0, 1⟩ : Vec2) ∧
    (⟨0, 1⟩ : Vec2) ≠ (⟨0, -1⟩ : Vec2) := by
  constructor
  · norm_num [get_food_gradient, gradLoop, gradDirections, gradGrid0]
  · intro h
    have := congrArg Vec2.y h
    norm_num at this

lemma gradLoop_spec (g : ℤ → ℤ → ℚ) (cols rows x y : ℤ)
    (l : List (ℤ × ℤ × Vec2)) : ∀ m0 b0,
    m0 ≤ (gradLoop g cols rows x y l (m0, b0)).1 ∧
    (∀ e ∈ l, (0 ≤ x + e.1 ∧ x + e.1 < cols ∧ 0 ≤ y + e.2.1 ∧ y + e.2.1 < rows) →
      g (y + e.2.1) (x + e.1) ≤ (gradLoop g cols rows x y l (m0, b0)).1) ∧
    ((gradLoop g cols rows x y l (m0, b0)).1 = m0 →
      (gradLoop g cols rows x y l (m0, b0)).2 = b0) ∧
    (m0 < (gradLoop g cols rows x y l (m0, b0)).1 →
      ∃ e ∈ l, (0 ≤ x + e.1 ∧ x + e.1 < cols ∧ 0 ≤ y + e.2.1 ∧ y + e.2.1 < rows) ∧
        g (y + e.2.1) (x + e.1) = (gradLoop g cols rows x y l (m0, b0)).1 ∧
        (gradLoop g cols rows x y l (m0, b0)).2 = e.2.2) := by
  induction l with
  | nil =>
    intro m0 b0
    exact ⟨le_rfl, by simp, fun _ => rfl, fun h => absurd h (lt_irrefl m0)⟩
  | cons e rest ih =>
    intro m0 b0
    obtain ⟨dx, dy, dir⟩ := e
    by_cases hb : 0 ≤ x + dx ∧ x + dx < cols ∧ 0 ≤ y + dy ∧ y + dy < rows
    · by_cases hgt : g (y + dy) (x + dx) > m0
      · have hred : gradLoop g cols rows x y ((dx, dy, dir) :: rest) (m0, b0) =
            gradLoop g cols rows x y rest (g (y + dy) (x + dx), dir) := by
          simp only [gradLoop]
          rw [if_pos hb, if_pos hgt]
        obtain ⟨ih1, ih2, ih3, ih4⟩ := ih (g (y + dy) (x + dx)) dir
        rw [hred]
        refine ⟨le_trans (le_of_lt hgt) ih1, ?_, ?_, ?_⟩
        · intro e' he' hbe'
          rcases List.mem_cons.mp he' with he' | he'
          · rw [he']; exact ih1
          · exact ih2 e' he' hbe'
        · intro hm
          exfalso
          have := ih1
          rw [hm] at this
          exact absurd (lt_of_lt_of_le hgt this) (lt_irrefl m0)
        · intro _
          by_cases heq : (gradLoop g cols rows x y rest (g (y + dy) (x + dx), dir)).1 =
              g (y + dy) (x + dx)
          · exact ⟨(dx, dy, dir), List.mem_cons_self _ _, hb, heq.symm, ih3 heq⟩
          · obtain ⟨e', he', hbe', hse', hde'⟩ := ih4 (lt_of_le_of_ne ih1 (Ne.symm heq))
            exact ⟨e', List.mem_cons_of_mem _ he', hbe', hse', hde'⟩
      · have hred : gradLoop g cols rows x y ((dx, dy, dir) :: rest) (m0, b0) =
            gradLoop g cols rows x y rest (m0, b0) := by
          simp only [gradLoop]
          rw [if_pos hb, if_neg hgt]
        obtain ⟨ih1, ih2, ih3, ih4⟩ := ih m0 b0
        rw [hred]
        refine ⟨ih1, ?_, ih3, ?_⟩
        · intro e' he' hbe'
          rcases List.mem_cons.mp he' with he' | he'
          · rw [he']
            exact le_trans (not_lt.mp hgt) ih1
          · exact ih2 e' he' hbe'
        · intro hm
          obtain ⟨e', he', hbe', hse', hde'⟩ := ih4 hm
          exact ⟨e', List.mem_cons_of_mem _ he', hbe', hse', hde'⟩
    · have hred : gradLoop g cols rows x y ((dx, dy, dir) :: rest) (m0, b0) =
          gradLoop g cols rows x y rest (m0, b0) := by
        simp only [gradLoop]
        rw [if_neg hb]
      obtain ⟨ih1, ih2, ih3, ih4⟩ := ih m0 b0
      rw [hred]
      refine ⟨ih1, ?_, ih3, ?_⟩
      · intro e' he' hbe'
        rcases List.mem_cons.mp he' with he' | he'
        · exfalso
          rw [he'] at hbe'
          exact hb hbe'
        · exact ih2 e' he' hbe'
      · intro hm
        obtain ⟨e', he', hbe', hse', hde'⟩ := ih4 hm
        exact ⟨e', List.mem_cons_of_mem _ he', hbe', hse', hde'⟩

/-- C9, amended: the gradient query compares the center cell against its
in-bounds axis-neighbors and returns the unit axis direction of a neighbor
of maximal strength when that maximum strictly exceeds the center's
strength, and the zero vector when no in-bounds axis-neighbor is strictly
greater (not the first strictly greater neighbor in scan order).
`get_signal_gradient` is the same scan. -/
theorem c9_gradient_amended (g : ℤ → ℤ → ℚ) (cols rows x y : ℤ) :
    ((∀ e ∈ gradDirections,
        (0 ≤ x + e.1 ∧ x + e.1 < cols ∧ 0 ≤ y + e.2.1 ∧ y + e.2.1 < rows) →
        g (y + e.2.1) (x + e.1) ≤ g y x) →
      get_food_gradient g cols rows x y = Vec2.zero) ∧
    ((∃ e ∈ gradDirections,
        (0 ≤ x + e.1 ∧ x + e.1 < cols ∧ 0 ≤ y + e.2.1 ∧ y + e.2.1 < rows) ∧
        g y x < g (y + e.2.1) (x + e.1)) →
      ∃ e ∈ gradDirections,
        (0 ≤ x + e.1 ∧ x + e.1 < cols ∧ 0 ≤ y + e.2.1 ∧ y + e.2.1 < rows) ∧
        g y x < g (y + e.2.1) (x + e.1) ∧
        get_food_gradient g cols rows x y = e.2.2 ∧
        (∀ e' ∈ gradDirections,
          (0 ≤ x + e'.1 ∧ x + e'.1 < cols ∧ 0 ≤ y + e'.2.1 ∧ y + e'.2.1 < rows) →
          g (y + e'.2.1) (x + e'.1) ≤ g (y + e.2.1) (x + e.1))) ∧
    get_signal_gradient g cols rows x y = get_food_gradient g cols rows x y := by
  obtain ⟨h1, h2, h3, h4⟩ := gradLoop_spec g cols rows x y gradDirections (g y x) Vec2.zero
  refine ⟨?_, ?_, rfl⟩
  · intro hall
    apply h3
    apply le_antisymm ?_ h1
    by_cases heq : (gradLoop g cols rows x y gradDirections (g y x, Vec2.zero)).1 = g y x
    · exact le_of_eq heq
    · obtain ⟨e', he', hbe', hse', _⟩ := h4 (lt_of_le_of_ne h1 (Ne.symm heq))
      rw [← hse']
      exact hall e' he' hbe'
  · rintro ⟨e, he, hbe, hgt⟩
    have hm : g y x < (gradLoop g cols rows x y gradDirections (g y x, Vec2.zero)).1 :=
      lt_of_lt_of_le hgt (h2 e he hbe)
    obtain ⟨e', he', hbe', hse', hde'⟩ := h4 hm
    refine ⟨e', he', hbe', ?_, ?_, ?_⟩
    · rw [hse']; exact hm
    · exact hde'
    · intro f hf hbf
      rw [hse']
      exact h2 f hf hbf

/-- Witness for C9's amended theorem: on the all-zero grid no neighbor is
strictly greater, so the gradient is the zero vector. -/
theorem c9_gradient_amended_witness :
    get_food_gradient (fun _ _ => 0) 3 3 1 1 = Vec2.zero :=
  (c9_gradient_amended (fun _ _ => 0) 3 3 1 1).1 (by intro e _ _; norm_num)

/-!
`PheromoneMap.update` / `SignalNetworkMap.update`: per-channel evaporation
then 8-neighbor diffusion built from `np.roll`, which shifts an array with
wraparound — `np.roll(a, k)[i] = a[(i - k) mod n]`.  A channel grid is a
`rows × cols` array, modelled with toroidal `ZMod` indices.
-/

/-- `np.roll(a, k, axis=0)` (row shift with wraparound). -/
noncomputable def rollRows {r c : ℕ} (a : ZMod r → ZMod c → ℚ) (k : ℤ) :
    ZMod r → ZMod c → ℚ :=
  fun i j => a (i - (k : ZMod r)) j

/-- `np.roll(a, k, axis=1)` (column shift with wraparound). -/
noncomputable def rollCols {r c : ℕ} (a : ZMod r → ZMod c → ℚ) (k : ℤ) :
    ZMod r → ZMod c → ℚ :=
  fun i j => a i (j - (k : ZMod c))

/-- The eight `(dx, dy)` diffusion shifts, in loop order (`dy` outer, `dx`
inner, skipping `(0, 0)`). -/
noncomputable def diffShifts : List (ℤ × ℤ) :=
  [(-1, -1), (0, -1), (1, -1), (-1, 0), (1, 0), (-1, 1), (0, 1), (1, 1)]

/-- `PheromoneMap.update` on one channel grid: `grid *= 0.99`, then
`diffused = Σ np.roll(np.roll(grid, dx, axis=1), dy, axis=0) * (0.1 / 8)`
and `grid += diffused`. -/
noncomputable def pheromone_update {r c : ℕ} (g : ZMod r → ZMod c → ℚ) :
    ZMod r → ZMod c → ℚ :=
  let e := fun i j => g i j * (99 / 100)
  let diffused := fun i j =>
    (diffShifts.map (fun p => rollRows (rollCols e p.1) p.2 i j * (1 / 10 / 8))).sum
  fun i j => e i j + diffused i j

/-- `SignalNetworkMap.update` on one channel grid: identical decay and
broadcast arithmetic (`decay_rate = 0.99`, `broadcast_rate = 0.1`). -/
noncomputable def signal_update {r c : ℕ} (g : ZMod r → ZMod c → ℚ) :
    ZMod r → ZMod c → ℚ :=
  let e := fun i j => g i j * (99 / 100)
  let diffused := fun i j =>
    (diffShifts.map (fun p => rollRows (rollCols e p.1) p.2 i j * (1 / 10 / 8))).sum
  fun i j => e i j + diffused i j

/-- A deposit of strength `s` in the single top-border cell `(row 0, col 0)`. -/
noncomputable def edgeGrid (r c : ℕ) (s : ℚ) : ZMod r → ZMod c → ℚ :=
  fun i j => if i = 0 ∧ j = 0 then s else 0

/-- C10: field diffusion is toroidal.  Pointwise, the updated cell `(i, j)`
sums the decayed strengths of its 8 neighbors at indices shifted modulo the
grid dimensions (`ZMod` subtraction), so a deposit on the top border row
bleeds to the bottom border row on the next update:
on `edgeGrid`, cell `(rows-1, 0)` receives `s · 0.99 · 0.1/8 > 0`.
`SignalNetworkMap.update` computes the same way. -/
theorem c10_toroidal_diffusion (r c : ℕ) (hr : 3 ≤ r) (hc : 3 ≤ c) (s : ℚ) (hs : 0 < s) :
    (∀ (g : ZMod r → ZMod c → ℚ) (i : ZMod r) (j : ZMod c),
      pheromone_update g i j =
        g i j * (99 / 100) +
          (diffShifts.map (fun p =>
            g (i - (p.2 : ZMod r)) (j - (p.1 : ZMod c)) * (99 / 100) * (1 / 10 / 8))).sum ∧
      signal_update g i j = pheromone_update g i j) ∧
    pheromone_update (edgeGrid r c s) (-1) 0 = s * (99 / 100) * (1 / 10 / 8) ∧
    0 < pheromone_update (edgeGrid r c s) (-1) 0 := by
  have hrz : (3 : ℤ) ≤ (r : ℤ) := by exact_mod_cast hr
  have hcz : (3 : ℤ) ≤ (c : ℤ) := by exact_mod_cast hc
  have hint : ∀ (n : ℕ) (a : ℤ), (3 : ℤ) ≤ n → a ≠ 0 → -2 ≤ a → a ≤ 2 →
      ((a : ZMod n) ≠ 0) := by
    intro n a h3 ha hlo hhi hcast
    rw [ZMod.intCast_zmod_eq_zero_iff_dvd] at hcast
    have hle : (n : ℤ) ≤ |a| := Int.le_of_dvd (abs_pos.mpr ha) ((dvd_abs _ _).mpr hcast)
    have hab : |a| ≤ 2 := abs_le.mpr ⟨hlo, hhi⟩
    omega
  have hr1 : ((-1 : ℤ) : ZMod r) ≠ 0 := hint r (-1) hrz (by norm_num) (by norm_num) (by norm_num)
  have hr2 : ((-2 : ℤ) : ZMod r) ≠ 0 := hint r (-2) hrz (by norm_num) (by norm_num) (by norm_num)
  have hc1 : ((1 : ℤ) : ZMod c) ≠ 0 := hint c 1 hcz (by norm_num) (by norm_num) (by norm_num)
  have hcm : ((-1 : ℤ) : ZMod c) ≠ 0 := hint c (-1) hcz (by norm_num) (by norm_num) (by norm_num)
  have heq : pheromone_update (edgeGrid r c s) (-1) 0 = s * (99 / 100) * (1 / 10 / 8) := by
    simp only [pheromone_update, rollRows, rollCols, diffShifts, edgeGrid,
      List.map_cons, List.map_nil, List.sum_cons, List.sum_nil]
    push_cast at hr1 hr2 hc1 hcm ⊢
    have e1 : (-1 : ZMod r) - -1 = 0 := by ring
    have e2 : (-1 : ZMod r) - 0 = -1 := by ring
    have e3 : (-1 : ZMod r) - 1 = -2 := by ring
    have f1 : (0 : ZMod c) - -1 = 1 := by ring
    have f2 : (0 : ZMod c) - 0 = 0 := by ring
    have f3 : (0 : ZMod c) - 1 = -1 := by ring
    rw [e1, e2, e3, f1, f2, f3]
    simp [hr1, hr2, hc1, hcm]
  exact ⟨fun g i j => ⟨rfl, rfl⟩, heq, by rw [heq]; positivity⟩

/-- Witness for C10 on a 3×3 grid with a unit deposit. -/
theorem c10_toroidal_diffusion_witness :
    pheromone_update (edgeGrid 3 3 1) (-1) 0 = 1 * (99 / 100) * (1 / 10 / 8) :=
  (c10_toroidal_diffusion 3 3 (by norm_num) (by norm_num) 1 (by norm_num)).2.1

/-!
`SpatialHashGrid` from src/core/spatial_hash.py.  An entity is its position,
its `alive` flag and an id standing for Python object identity; the grid is
the `defaultdict(list)` as a total function with `[]` for absent keys (a key
is present exactly when its list is non-empty, since entries are only ever
appended).
-/

open scoped Classical

/-- An entity as seen by the spatial hash. -/
structure SEnt where
  pos : Vec2
  alive : Bool
  id : ℕ

/-- `SpatialHashGrid.get_cell_key`: `(int(x // cell_size), int(y // cell_size))`. -/
noncomputable def get_cell_key (cell_size : ℝ) (p : Vec2) : ℤ × ℤ :=
  (⌊p.x / cell_size⌋, ⌊p.y / cell_size⌋)

/-- `SpatialHashGrid.add_entity`: append to the entity's cell list. -/
noncomputable def add_entity (cell_size : ℝ) (grid : ℤ × ℤ → List SEnt) (e : SEnt) :
    ℤ × ℤ → List SEnt :=
  fun k => if k = get_cell_key cell_size e.pos then grid k ++ [e] else grid k

/-- `SpatialHashGrid.rebuild`: clear, then add every alive entity. -/
noncomputable def rebuild (cell_size : ℝ) (all_entities : List SEnt) : ℤ × ℤ → List SEnt :=
  all_entities.foldl
    (fun g e => if e.alive = true then add_entity cell_size g e else g)
    (fun _ => [])

/-- The 3×3 block of `(dx, dy)` cell offsets, in loop order. -/
noncomputable def cellOffsets : List (ℤ × ℤ) :=
  [(-1, -1), (-1, 0), (-1, 1), (0, -1), (0, 0), (0, 1), (1, -1), (1, 0), (1, 1)]

/-- The body of the inner loop of `get_neighbors`: the entry contributed by
one `other_entity` (skip self and dead entities, keep exact distances below
the radius). -/
noncomputable def neighborEntry (entity other : SEnt) (radius : ℝ) : Option (SEnt × ℝ) :=
  if other ≠ entity ∧ other.alive = true then
    if Vec2.distance entity.pos other.pos < radius then
      some (other, Vec2.distance entity.pos other.pos)
    else none
  else none

/-- `SpatialHashGrid.get_neighbors`. -/
noncomputable def get_neighbors (cell_size : ℝ) (grid : ℤ × ℤ → List SEnt)
    (entity : SEnt) (radius : ℝ) : List (SEnt × ℝ) :=
  let ek := get_cell_key cell_size entity.pos
  let cells := cellOffsets.filterMap (fun o =>
    if grid (ek.1 + o.1, ek.2 + o.2) ≠ [] then some (ek.1 + o.1, ek.2 + o.2) else none)
  cells.flatMap (fun k => (grid k).filterMap (fun other => neighborEntry entity other radius))

lemma neighborEntry_eq_some (entity other t : SEnt) (radius d : ℝ) :
    neighborEntry entity other radius = some (t, d) ↔
      (other ≠ entity ∧ other.alive = true) ∧
      Vec2.distance entity.pos other.pos < radius ∧
      other = t ∧ Vec2.distance entity.pos other.pos = d := by
  unfold neighborEntry
  split_ifs with h1 h2
  · simp [h1, h2]
  · simp [h1, h2]
  · simp [h1]

lemma rebuild_mem_aux (cell_size : ℝ) (L : List SEnt) (t : SEnt) (k : ℤ × ℤ) :
    ∀ g : ℤ × ℤ → List SEnt,
      t ∈ (L.foldl (fun g e => if e.alive = true then add_entity cell_size g e else g) g) k ↔
        t ∈ g k ∨ (t ∈ L ∧ t.alive = true ∧ get_cell_key cell_size t.pos = k) := by
  induction L with
  | nil => intro g; simp
  | cons e rest ih =>
    intro g
    simp only [List.foldl_cons]
    rw [ih]
    by_cases ha : e.alive = true
    · simp only [ha, if_true]
      have hmem : t ∈ add_entity cell_size g e k ↔
          t ∈ g k ∨ (t = e ∧ get_cell_key cell_size e.pos = k) := by
        unfold add_entity
        split_ifs with hk
        · subst hk
          simp [List.mem_append]
        · constructor
          · intro h; exact Or.inl h
          · rintro (h | ⟨rfl, hc⟩)
            · exact h
            · exact absurd hc.symm hk
      rw [hmem]
      constructor
      · rintro ((h | ⟨rfl, hk⟩) | h)
        · exact Or.inl h
        · exact Or.inr ⟨List.mem_cons_self _ _, ha, hk⟩
        · exact Or.inr ⟨List.mem_cons_of_mem _ h.1, h.2.1, h.2.2⟩
      · rintro (h | ⟨hmem', hal, hk⟩)
        · exact Or.inl (Or.inl h)
        · rcases List.mem_cons.mp hmem' with rfl | hmem''
          · exact Or.inl (Or.inr ⟨rfl, hk⟩)
          · exact Or.inr ⟨hmem'', hal, hk⟩
    · simp only [ha, if_false]
      constructor
      · rintro (h | h)
        · exact Or.inl h
        · exact Or.inr ⟨List.mem_cons_of_mem _ h.1, h.2.1, h.2.2⟩
      · rintro (h | ⟨hmem', hal, hk⟩)
        · exact Or.inl h
        · rcases List.mem_cons.mp hmem' with rfl | hmem''
          · exact absurd hal ha
          · exact Or.inr ⟨hmem'', hal, hk⟩

lemma rebuild_mem (cell_size : ℝ) (L : List SEnt) (t : SEnt) (k : ℤ × ℤ) :
    t ∈ rebuild cell_size L k ↔
      t ∈ L ∧ t.alive = true ∧ get_cell_key cell_size t.pos = k := by
  unfold rebuild
  rw [rebuild_mem_aux]
  simp

lemma offset_mem_iff (a b : ℤ) :
    (a, b) ∈ cellOffsets ↔ |a| ≤ 1 ∧ |b| ≤ 1 := by
  unfold cellOffsets
  constructor
  · intro h
    fin_cases h <;> norm_num
  · rintro ⟨ha, hb⟩
    have ha2 := abs_le.mp ha
    have hb2 := abs_le.mp hb
    have ha' : a = -1 ∨ a = 0 ∨ a = 1 := by omega
    have hb' : b = -1 ∨ b = 0 ∨ b = 1 := by omega
    rcases ha' with rfl | rfl | rfl <;> rcases hb' with rfl | rfl | rfl <;> simp

/-- C5: after `rebuild(all_entities)`, `get_neighbors(entity, radius)`
contains `(t, d)` exactly when `t` is an alive entity of the list other
than the query entity, lying in the 3×3 block of cells around the entity's
cell, with exact distance `d < radius`; hence the result never contains the
query entity or dead entities, and as a set it does not depend on the
insertion order of the entities. -/
theorem c5_spatial_query_spec (cell_size : ℝ) (L : List SEnt) (e t : SEnt) (r d : ℝ) :
    ((t, d) ∈ get_neighbors cell_size (rebuild cell_size L) e r ↔
      t ∈ L ∧ t.alive = true ∧ t ≠ e ∧
      |(get_cell_key cell_size t.pos).1 - (get_cell_key cell_size e.pos).1| ≤ 1 ∧
      |(get_cell_key cell_size t.pos).2 - (get_cell_key cell_size e.pos).2| ≤ 1 ∧
      d = Vec2.distance e.pos t.pos ∧ Vec2.distance e.pos t.pos < r) ∧
    (∀ L' : List SEnt, L.Perm L' →
      ((t, d) ∈ get_neighbors cell_size (rebuild cell_size L) e r ↔
       (t, d) ∈ get_neighbors cell_size (rebuild cell_size L') e r)) := by
  have hmain : ∀ M : List SEnt,
      (t, d) ∈ get_neighbors cell_size (rebuild cell_size M) e r ↔
        t ∈ M ∧ t.alive = true ∧ t ≠ e ∧
        |(get_cell_key cell_size t.pos).1 - (get_cell_key cell_size e.pos).1| ≤ 1 ∧
        |(get_cell_key cell_size t.pos).2 - (get_cell_key cell_size e.pos).2| ≤ 1 ∧
        d = Vec2.distance e.pos t.pos ∧ Vec2.distance e.pos t.pos < r := by
    intro M
    unfold get_neighbors
    simp only [List.mem_flatMap, List.mem_filterMap]
    constructor
    · rintro ⟨k, hk, other, hother, hentry⟩
      obtain ⟨o, _ho, hsome⟩ := hk
      have hko : k = ((get_cell_key cell_size e.pos).1 + o.1,
          (get_cell_key cell_size e.pos).2 + o.2) := by
        by_cases hne : rebuild cell_size M ((get_cell_key cell_size e.pos).1 + o.1,
            (get_cell_key cell_size e.pos).2 + o.2) ≠ []
        · rw [if_pos hne] at hsome
          exact (Option.some_inj.mp hsome).symm
        · rw [if_neg hne] at hsome
          exact absurd hsome (by simp)
      obtain ⟨⟨hne, hal⟩, hlt, rfl, hdist⟩ := (neighborEntry_eq_some e other t r d).mp hentry
      obtain ⟨hmem, _, hcell⟩ := (rebuild_mem cell_size M other k).mp hother
      have hoin : (o.1, o.2) ∈ cellOffsets := by
        rcases o with ⟨o1, o2⟩; exact _ho
      have habs := (offset_mem_iff o.1 o.2).mp hoin
      have hk2 : get_cell_key cell_size other.pos =
          ((get_cell_key cell_size e.pos).1 + o.1,
           (get_cell_key cell_size e.pos).2 + o.2) := hcell.trans hko
      refine ⟨hmem, hal, hne, ?_, ?_, hdist.symm, hlt⟩
      · rw [hk2]
        simpa using habs.1
      · rw [hk2]
        simpa using habs.2
    · rintro ⟨hmem, hal, hne, hdx, hdy, hd, hlt⟩
      refine ⟨get_cell_key cell_size t.pos, ?_, t, ?_, ?_⟩
      · refine ⟨((get_cell_key cell_size t.pos).1 - (get_cell_key cell_size e.pos).1,
                 (get_cell_key cell_size t.pos).2 - (get_cell_key cell_size e.pos).2),
               (offset_mem_iff _ _).mpr ⟨hdx, hdy⟩, ?_⟩
        have hnonempty : rebuild cell_size M
            ((get_cell_key cell_size e.pos).1 +
              ((get_cell_key cell_size t.pos).1 - (get_cell_key cell_size e.pos).1),
             (get_cell_key cell_size e.pos).2 +
              ((get_cell_key cell_size t.pos).2 - (get_cell_key cell_size e.pos).2)) ≠ [] := by
          have hkeq : ((get_cell_key cell_size e.pos).1 +
              ((get_cell_key cell_size t.pos).1 - (get_cell_key cell_size e.pos).1),
             (get_cell_key cell_size e.pos).2 +
              ((get_cell_key cell_size t.pos).2 - (get_cell_key cell_size e.pos).2)) =
              get_cell_key cell_size t.pos := by
            rcases get_cell_key cell_size t.pos with ⟨a, b⟩
            rcases get_cell_key cell_size e.pos with ⟨a', b'⟩
            simp only [Prod.mk.injEq]
            omega
          rw [hkeq]
          intro hempty
          have := (rebuild_mem cell_size M t (get_cell_key cell_size t.pos)).mpr
            ⟨hmem, hal, rfl⟩
          rw [hempty] at this
          exact absurd this (List.not_mem_nil t)
        rw [if_pos hnonempty]
        congr 1
        rcases get_cell_key cell_size t.pos with ⟨a, b⟩
        rcases get_cell_key cell_size e.pos with ⟨a', b'⟩
        simp only [Prod.mk.injEq]
        omega
      · exact (rebuild_mem cell_size M t _).mpr ⟨hmem, hal, rfl⟩
      · exact (neighborEntry_eq_some e t t r d).mpr ⟨⟨hne, hal⟩, hlt, rfl, hd.symm⟩
  refine ⟨hmain L, fun L' hperm => ?_⟩
  rw [hmain L, hmain L']
  constructor
  · rintro ⟨h1, h⟩; exact ⟨hperm.mem_iff.mp h1, h⟩
  · rintro ⟨h1, h⟩; exact ⟨hperm.mem_iff.mpr h1, h⟩

/-- Witness for C5's permutation part at a singleton list. -/
theorem c5_spatial_query_spec_witness :
    (⟨Vec2.zero, true, 0⟩, 0) ∈
        get_neighbors 50 (rebuild 50 [⟨Vec2.zero, true, 0⟩]) ⟨Vec2.zero, true, 1⟩ 10 ↔
      (⟨Vec2.zero, true, 0⟩, 0) ∈
        get_neighbors 50 (rebuild 50 [⟨Vec2.zero, true, 0⟩]) ⟨Vec2.zero, true, 1⟩ 10 :=
  (c5_spatial_query_spec 50 [⟨Vec2.zero, true, 0⟩] ⟨Vec2.zero, true, 1⟩
    ⟨Vec2.zero, true, 0⟩ 10 0).2 [⟨Vec2.zero, true, 0⟩] (List.Perm.refl _)

/-!
`Pod.vote_for_target` from src/swarm/pod.py and the majority tally of
`SwarmController._update_pod_swarm` from src/swarm/swarm_controller.py.
A target carries an id standing for Python object identity (the vote dict
is keyed by object); a pod here is the projection of `Pod` onto the fields
the vote reads.
-/

/-- A target as seen by the pod vote. -/
structure CTarget where
  id : ℕ
  alive : Bool
  pos : Vec2

/-- A pod, projected onto the fields `vote_for_target` reads. -/
structure PodV where
  pos : Vec2
  alive : Bool
  perception_radius : ℝ
  target : Option CTarget

/-- One iteration of the closest-visible-target loop of `vote_for_target`:
the running `(closest, closest_dist)` accumulator, with `none` standing for
the initial `closest_dist = inf`. -/
noncomputable def voteStep (p : PodV) (acc : Option (CTarget × ℝ)) (t : CTarget) :
    Option (CTarget × ℝ) :=
  if t.alive = true then
    if Vec2.distance p.pos t.pos < p.perception_radius ∧
        (match acc with
         | none => True
         | some (_, cd) => Vec2.distance p.pos t.pos < cd) then
      some (t, Vec2.distance p.pos t.pos)
    else acc
  else acc

/-- The closest-visible-target search of `vote_for_target`, preceded by the
`if not targets_list` early return. -/
noncomputable def voteClosest (p : PodV) (targets_list : List CTarget) : Option CTarget :=
  if targets_list = [] then none
  else (targets_list.foldl (voteStep p) none).map Prod.fst

/-- `Pod.vote_for_target`: the assigned target if alive, otherwise the
closest alive target within sonar perception. -/
noncomputable def vote_for_target (p : PodV) (targets_list : List CTarget) : Option CTarget :=
  match p.target with
  | some t => if t.alive = true then some t else voteClosest p targets_list
  | none => voteClosest p targets_list

/-- `votes[t]`: multiplicity of `t` in the nomination list. -/
noncomputable def countVotes (votes : List CTarget) (t : CTarget) : ℕ :=
  votes.countP (fun x => decide (x = t))

/-- `max(votes.values())` (0 on an empty list). -/
noncomputable def maxVotes (votes : List CTarget) : ℕ :=
  (votes.map (countVotes votes)).foldl max 0

/-- The collective-vote section of `SwarmController._update_pod_swarm`:
re-vote every live pod, tally, and authorize the barrage when the
most-voted target has at least a 0.6 fraction of the live pods; `prev` is
the controller's previous `(pod_barrage_active, pod_barrage_target)`,
kept unchanged on the `if not alive_pods: return` early exit. -/
noncomputable def updatePodBarrage (pod_list : List PodV) (targets_list : List CTarget)
    (prev : Bool × Option CTarget) : Bool × Option CTarget :=
  let alive_pods := pod_list.filter (fun p => p.alive)
  if alive_pods = [] then prev
  else
    let votes := alive_pods.filterMap (fun p => vote_for_target p targets_list)
    let barrage_target :=
      if votes ≠ [] then
        if (maxVotes votes : ℚ) / (alive_pods.length : ℚ) ≥ 6 / 10 then
          votes.find? (fun t => decide (countVotes votes t = maxVotes votes))
        else none
      else none
    (barrage_target.isSome, barrage_target)

lemma voteStep_none_eq (p : PodV) (u : CTarget) :
    voteStep p none u =
      if u.alive = true ∧ Vec2.distance p.pos u.pos < p.perception_radius then
        some (u, Vec2.distance p.pos u.pos)
      else none := by
  unfold voteStep
  by_cases h1 : u.alive = true
  · by_cases h2 : Vec2.distance p.pos u.pos < p.perception_radius
    · rw [if_pos h1, if_pos ⟨h2, trivial⟩, if_pos ⟨h1, h2⟩]
    · rw [if_pos h1, if_neg (fun hc : _ ∧ True => h2 hc.1),
        if_neg (fun hc : _ ∧ _ => h2 hc.2)]
  · rw [if_neg h1, if_neg (fun hc : _ ∧ _ => h1 hc.1)]

lemma voteStep_some_eq (p : PodV) (u t1 : CTarget) (d1 : ℝ) :
    voteStep p (some (t1, d1)) u =
      if u.alive = true ∧ Vec2.distance p.pos u.pos < p.perception_radius ∧
          Vec2.distance p.pos u.pos < d1 then
        some (u, Vec2.distance p.pos u.pos)
      else some (t1, d1) := by
  unfold voteStep
  by_cases h1 : u.alive = true
  · by_cases h2 : Vec2.distance p.pos u.pos < p.perception_radius ∧
        Vec2.distance p.pos u.pos < d1
    · rw [if_pos h1, if_pos h2, if_pos ⟨h1, h2⟩]
    · rw [if_pos h1, if_neg h2, if_neg (fun hc : _ ∧ _ => h2 hc.2)]
  · rw [if_neg h1, if_neg (fun hc : _ ∧ _ => h1 hc.1)]

/-- Invariant of the closest-target fold: the accumulator always holds a
pair `(t0, distance p t0)` with the distance below perception, and the
final accumulator is an argmin over the alive in-range processed targets. -/
lemma voteStep_fold_spec (p : PodV) (l : List CTarget) :
    ∀ acc : Option (CTarget × ℝ),
      (∀ t0 d0, acc = some (t0, d0) → d0 = Vec2.distance p.pos t0.pos ∧
          Vec2.distance p.pos t0.pos < p.perception_radius) →
      ((l.foldl (voteStep p) acc = none → acc = none ∧
          ∀ t ∈ l, t.alive = true → ¬ Vec2.distance p.pos t.pos < p.perception_radius) ∧
       (∀ t dd, l.foldl (voteStep p) acc = some (t, dd) →
          dd = Vec2.distance p.pos t.pos ∧
          Vec2.distance p.pos t.pos < p.perception_radius ∧
          (acc = some (t, dd) ∨ (t ∈ l ∧ t.alive = true)) ∧
          (∀ t' ∈ l, t'.alive = true → Vec2.distance p.pos t'.pos < p.perception_radius →
            dd ≤ Vec2.distance p.pos t'.pos) ∧
          (∀ t0 d0, acc = some (t0, d0) → dd ≤ d0))) := by
  induction l with
  | nil =>
    intro acc hacc
    simp only [List.foldl_nil]
    refine ⟨fun h => ⟨h, by simp⟩, ?_⟩
    intro t dd hres
    obtain ⟨hd, hperc⟩ := hacc t dd hres
    refine ⟨hd, hperc, Or.inl hres, by simp, ?_⟩
    intro t0 d0 h0
    rw [hres] at h0
    exact le_of_eq (congrArg Prod.snd (Option.some_inj.mp h0))
  | cons u rest ih =>
    intro acc hacc
    simp only [List.foldl_cons]
    rcases hacc0 : acc with _ | ⟨t1, d1⟩
    · -- initial closest_dist is still infinite
      rw [voteStep_none_eq]
      by_cases hc : u.alive = true ∧ Vec2.distance p.pos u.pos < p.perception_radius
      · rw [if_pos hc]
        have hinv : ∀ t0 d0, (some (u, Vec2.distance p.pos u.pos) :
            Option (CTarget × ℝ)) = some (t0, d0) →
            d0 = Vec2.distance p.pos t0.pos ∧
            Vec2.distance p.pos t0.pos < p.perception_radius := by
          intro t0 d0 h0
          have h1 : u = t0 := congrArg Prod.fst (Option.some_inj.mp h0)
          have h2 : Vec2.distance p.pos u.pos = d0 :=
            congrArg Prod.snd (Option.some_inj.mp h0)
          subst h1
          exact ⟨h2.symm, hc.2⟩
        obtain ⟨ih1, ih2⟩ := ih _ hinv
        refine ⟨fun hres => absurd (ih1 hres).1 (by simp), ?_⟩
        intro t dd hres
        obtain ⟨hd, hperc, hor, hmin, hle⟩ := ih2 t dd hres
        refine ⟨hd, hperc, ?_, ?_, ?_⟩
        · rcases hor with h | h
          · have h1 : u = t := congrArg Prod.fst (Option.some_inj.mp h)
            exact Or.inr ⟨h1 ▸ List.mem_cons_self _ _, h1 ▸ hc.1⟩
          · exact Or.inr ⟨List.mem_cons_of_mem _ h.1, h.2⟩
        · intro t' ht' hal' hperc'
          rcases List.mem_cons.mp ht' with rfl | ht'
          · exact hle _ _ rfl
          · exact hmin t' ht' hal' hperc'
        · intro t0 d0 h0
          simp at h0
      · rw [if_neg hc]
        obtain ⟨ih1, ih2⟩ := ih none (by simp)
        refine ⟨?_, ?_⟩
        · intro hres
          obtain ⟨_, hall⟩ := ih1 hres
          refine ⟨rfl, ?_⟩
          intro t ht hal
          rcases List.mem_cons.mp ht with rfl | ht
          · exact fun hp => hc ⟨hal, hp⟩
          · exact hall t ht hal
        · intro t dd hres
          obtain ⟨hd, hperc, hor, hmin, hle⟩ := ih2 t dd hres
          refine ⟨hd, hperc, ?_, ?_, ?_⟩
          · rcases hor with h | h
            · exact absurd h (by simp)
            · exact Or.inr ⟨List.mem_cons_of_mem _ h.1, h.2⟩
          · intro t' ht' hal' hperc'
            rcases List.mem_cons.mp ht' with rfl | ht'
            · exact absurd ⟨hal', hperc'⟩ hc
            · exact hmin t' ht' hal' hperc'
          · intro t0 d0 h0
            simp at h0
    · -- a closest candidate (t1, d1) is already held
      obtain ⟨hd1, hp1⟩ := hacc t1 d1 hacc0
      rw [voteStep_some_eq]
      by_cases hc : u.alive = true ∧ Vec2.distance p.pos u.pos < p.perception_radius ∧
          Vec2.distance p.pos u.pos < d1
      · rw [if_pos hc]
        have hinv : ∀ t0 d0, (some (u, Vec2.distance p.pos u.pos) :
            Option (CTarget × ℝ)) = some (t0, d0) →
            d0 = Vec2.distance p.pos t0.pos ∧
            Vec2.distance p.pos t0.pos < p.perception_radius := by
          intro t0 d0 h0
          have h1 : u = t0 := congrArg Prod.fst (Option.some_inj.mp h0)
          have h2 : Vec2.distance p.pos u.pos = d0 :=
            congrArg Prod.snd (Option.some_inj.mp h0)
          subst h1
          exact ⟨h2.symm, hc.2.1⟩
        obtain ⟨ih1, ih2⟩ := ih _ hinv
        refine ⟨fun hres => absurd (ih1 hres).1 (by simp), ?_⟩
        intro t dd hres
        obtain ⟨hd, hperc, hor, hmin, hle⟩ := ih2 t dd hres
        refine ⟨hd, hperc, ?_, ?_, ?_⟩
        · rcases hor with h | h
          · have h1 : u = t := congrArg Prod.fst (Option.some_inj.mp h)
            exact Or.inr ⟨h1 ▸ List.mem_cons_self _ _, h1 ▸ hc.1⟩
          · exact Or.inr ⟨List.mem_cons_of_mem _ h.1, h.2⟩
        · intro t' ht' hal' hperc'
          rcases List.mem_cons.mp ht' with rfl | ht'
          · exact hle _ _ rfl
          · exact hmin t' ht' hal' hperc'
        · intro t0 d0 h0
          have h1 : t1 = t0 := congrArg Prod.fst (Option.some_inj.mp h0)
          have h2 : d1 = d0 := congrArg Prod.snd (Option.some_inj.mp h0)
          have := hle u (Vec2.distance p.pos u.pos) rfl
          calc dd ≤ Vec2.distance p.pos u.pos := this
            _ ≤ d1 := le_of_lt hc.2.2
            _ = d0 := h2
      · rw [if_neg hc]
        obtain ⟨ih1, ih2⟩ := ih (some (t1, d1)) (by
          intro t0 d0 h0
          have h1 : t1 = t0 := congrArg Prod.fst (Option.some_inj.mp h0)
          have h2 : d1 = d0 := congrArg Prod.snd (Option.some_inj.mp h0)
          subst h1; subst h2
          exact ⟨hd1, hp1⟩)
        refine ⟨?_, ?_⟩
        · intro hres
          exact absurd (ih1 hres).1 (by simp)
        · intro t dd hres
          obtain ⟨hd, hperc, hor, hmin, hle⟩ := ih2 t dd hres
          refine ⟨hd, hperc, ?_, ?_, ?_⟩
          · rcases hor with h | h
            · exact Or.inl (hacc0 ▸ h)
            · exact Or.inr ⟨List.mem_cons_of_mem _ h.1, h.2⟩
          · intro t' ht' hal' hperc'
            rcases List.mem_cons.mp ht' with rfl | ht'
            · have hge : d1 ≤ Vec2.distance p.pos t'.pos := by
                by_contra hlt
                exact hc ⟨hal', hperc', lt_of_not_le hlt⟩
              exact le_trans (hle t1 d1 rfl) hge
            · exact hmin t' ht' hal' hperc'
          · intro t0 d0 h0
            have h2 : d1 = d0 := congrArg Prod.snd (Option.some_inj.mp h0)
            exact h2 ▸ hle t1 d1 rfl

/-- The closest-target search returns `none` exactly when no alive target is
within perception, and otherwise an alive in-range target of minimal
distance. -/
lemma voteClosest_spec (p : PodV) (targets : List CTarget) :
    (voteClosest p targets = none →
      ∀ t ∈ targets, t.alive = true → ¬ Vec2.distance p.pos t.pos < p.perception_radius) ∧
    (∀ t, voteClosest p targets = some t →
      t ∈ targets ∧ t.alive = true ∧ Vec2.distance p.pos t.pos < p.perception_radius ∧
      ∀ t' ∈ targets, t'.alive = true → Vec2.distance p.pos t'.pos < p.perception_radius →
        Vec2.distance p.pos t.pos ≤ Vec2.distance p.pos t'.pos) := by
  unfold voteClosest
  split_ifs with hemp
  · subst hemp
    exact ⟨fun _ t ht => absurd ht (List.not_mem_nil t), fun t ht => absurd ht (by simp)⟩
  · obtain ⟨f1, f2⟩ := voteStep_fold_spec p targets none (by simp)
    constructor
    · intro hres
      cases hfold : targets.foldl (voteStep p) none with
      | none => exact (f1 hfold).2
      | some pair =>
        rw [hfold] at hres
        exact absurd hres (by simp)
    · intro t hres
      cases hfold : targets.foldl (voteStep p) none with
      | none =>
        rw [hfold] at hres
        exact absurd hres (by simp)
      | some pair =>
        obtain ⟨tt, dd⟩ := pair
        rw [hfold] at hres
        have htt : tt = t := by simpa using hres
        subst htt
        obtain ⟨hd, hperc, hor, hmin, _⟩ := f2 tt dd hfold
        have hmem : tt ∈ targets ∧ tt.alive = true := by
          rcases hor with h | h
          · exact absurd h (by simp)
          · exact h
        refine ⟨hmem.1, hmem.2, hperc, ?_⟩
        intro t' ht' hal' hp'
        have := hmin t' ht' hal' hp'
        rw [hd] at this
        exact this

lemma le_foldl_max (l : List ℕ) : ∀ b : ℕ,
    b ≤ l.foldl max b ∧ ∀ a ∈ l, a ≤ l.foldl max b := by
  induction l with
  | nil => intro b; exact ⟨le_rfl, by simp⟩
  | cons c rest ih =>
    intro b
    simp only [List.foldl_cons]
    obtain ⟨h1, h2⟩ := ih (max b c)
    refine ⟨le_trans (le_max_left _ _) h1, ?_⟩
    intro a ha
    rcases List.mem_cons.mp ha with rfl | ha
    · exact le_trans (le_max_right _ _) h1
    · exact h2 a ha

lemma foldl_max_mem (l : List ℕ) : ∀ b : ℕ, l.foldl max b = b ∨ l.foldl max b ∈ l := by
  induction l with
  | nil => intro b; exact Or.inl rfl
  | cons c rest ih =>
    intro b
    simp only [List.foldl_cons]
    rcases ih (max b c) with h | h
    · rcases max_choice b c with hm | hm
      · exact Or.inl (h.trans hm)
      · rw [h, hm]
        exact Or.inr (List.mem_cons_self _ _)
    · exact Or.inr (List.mem_cons_of_mem _ h)

/-- Every count is bounded by `max(votes.values())`. -/
lemma countVotes_le_maxVotes (votes : List CTarget) (t : CTarget) :
    countVotes votes t ≤ maxVotes votes := by
  by_cases hmem : t ∈ votes
  · exact (le_foldl_max (votes.map (countVotes votes)) 0).2 _
      (List.mem_map_of_mem (countVotes votes) hmem)
  · have : countVotes votes t = 0 := by
      unfold countVotes
      rw [List.countP_eq_zero]
      intro x hx
      simp only [decide_eq_true_eq]
      intro hxt
      exact hmem (hxt ▸ hx)
    rw [this]
    exact Nat.zero_le _

/-- On a non-empty vote list the maximum count is attained. -/
lemma maxVotes_attained (votes : List CTarget) (hne : votes ≠ []) :
    ∃ t ∈ votes, countVotes votes t = maxVotes votes := by
  rcases foldl_max_mem (votes.map (countVotes votes)) 0 with h | h
  · obtain ⟨v, rest⟩ := List.exists_cons_of_ne_nil hne
    obtain ⟨l', hl'⟩ := rest
    exfalso
    have hv : v ∈ votes := by rw [hl']; exact List.mem_cons_self _ _
    have h1 : 1 ≤ countVotes votes v := by
      unfold countVotes
      rw [Nat.succ_le_iff, List.countP_pos]
      exact ⟨v, hv, by simp⟩
    have h2 := (le_foldl_max (votes.map (countVotes votes)) 0).2 _
      (List.mem_map_of_mem (countVotes votes) hv)
    rw [h] at h2
    omega
  · obtain ⟨t, hmem, heq⟩ := List.mem_map.mp h
    exact ⟨t, hmem, heq⟩

lemma not_distance_lt_zero (a b : Vec2) : ¬ Vec2.distance a b < 0 :=
  not_lt.mpr (Real.sqrt_nonneg _)

/-- When the assigned target is absent or dead, `vote_for_target` falls
through to the closest-target search. -/
lemma vote_for_target_else (p : PodV) (targets : List CTarget)
    (h : p.target = none ∨ ∃ t0, p.target = some t0 ∧ t0.alive = false) :
    vote_for_target p targets = voteClosest p targets := by
  rcases h with h | ⟨t0, h, hal⟩
  · simp [vote_for_target, h]
  · simp [vote_for_target, h, hal]

/-- Conversion of the float quorum test `max_votes / n >= 0.6` to naturals. -/
lemma quorum_threshold_iff (mx n : ℕ) (hn : 0 < n) :
    ((mx : ℚ) / (n : ℚ) ≥ 6 / 10) ↔ 3 * n ≤ 5 * mx := by
  have hnq : (0 : ℚ) < (n : ℚ) := by exact_mod_cast hn
  rw [ge_iff_le, div_le_div_iff (by norm_num) hnq]
  constructor
  · intro h
    have h2 : 6 * n ≤ mx * 10 := by exact_mod_cast h
    omega
  · intro h
    have h2 : 6 * n ≤ mx * 10 := by omega
    exact_mod_cast h2

/-- Target A of the quorum scenario. -/
noncomputable def tgtA : CTarget := ⟨0, true, Vec2.zero⟩

/-- Target B of the quorum scenario. -/
noncomputable def tgtB : CTarget := ⟨1, true, ⟨100, 0⟩⟩

/-- A live pod whose assigned mesh target is A. -/
noncomputable def podA : PodV := ⟨Vec2.zero, true, 350, some tgtA⟩

/-- A live pod whose assigned mesh target is B. -/
noncomputable def podB : PodV := ⟨Vec2.zero, true, 350, some tgtB⟩

/-- A live pod with no assigned target and zero sonar perception. -/
noncomputable def podN : PodV := ⟨Vec2.zero, true, 0, none⟩

/-- 5 live pods, 3 voting A and 2 voting B. -/
noncomputable def podsQuorumA : List PodV := [podA, podA, podA, podB, podB]

/-- 5 live pods, only 2 of which vote (both for B). -/
noncomputable def podsQuorumB : List PodV := [podB, podB, podN, podN, podN]

lemma tgtA_ne_tgtB : tgtA ≠ tgtB := by simp [tgtA, tgtB]

lemma vote_podA : vote_for_target podA [tgtA, tgtB] = some tgtA := by
  simp [vote_for_target, podA, tgtA]

lemma vote_podB (ts : List CTarget) : vote_for_target podB ts = some tgtB := by
  simp [vote_for_target, podB, tgtB]

lemma vote_podN : vote_for_target podN [tgtB] = none := by
  rw [vote_for_target_else podN [tgtB] (Or.inl rfl)]
  unfold voteClosest
  rw [if_neg (by simp : ¬ ([tgtB] : List CTarget) = [])]
  simp only [List.foldl_cons, List.foldl_nil]
  rw [voteStep_none_eq]
  have hcond : ¬ (tgtB.alive = true ∧
      Vec2.distance podN.pos tgtB.pos < podN.perception_radius) := by
    rintro ⟨_, hlt⟩
    have hz : podN.perception_radius = 0 := rfl
    rw [hz] at hlt
    exact not_distance_lt_zero _ _ hlt
  rw [if_neg hcond]
  rfl

lemma votesQuorumA :
    (podsQuorumA.filter (fun p => p.alive)).filterMap
      (fun p => vote_for_target p [tgtA, tgtB]) = [tgtA, tgtA, tgtA, tgtB, tgtB] := by
  have hfilter : podsQuorumA.filter (fun p => p.alive) = podsQuorumA := by
    simp [podsQuorumA, podA, podB]
  rw [hfilter]
  simp [podsQuorumA, vote_podA, vote_podB]

lemma votesQuorumB :
    (podsQuorumB.filter (fun p => p.alive)).filterMap
      (fun p => vote_for_target p [tgtB]) = [tgtB, tgtB] := by
  have hfilter : podsQuorumB.filter (fun p => p.alive) = podsQuorumB := by
    simp [podsQuorumB, podB, podN]
  rw [hfilter]
  simp [podsQuorumB, vote_podB, vote_podN]

lemma countQuorumA_A : countVotes [tgtA, tgtA, tgtA, tgtB, tgtB] tgtA = 3 := by
  simp [countVotes, List.countP_cons, tgtA_ne_tgtB, Ne.symm tgtA_ne_tgtB]

lemma countQuorumA_B : countVotes [tgtA, tgtA, tgtA, tgtB, tgtB] tgtB = 2 := by
  simp [countVotes, List.countP_cons, tgtA_ne_tgtB, Ne.symm tgtA_ne_tgtB]

lemma maxQuorumA : maxVotes [tgtA, tgtA, tgtA, tgtB, tgtB] = 3 := by
  unfold maxVotes
  rw [show ([tgtA, tgtA, tgtA, tgtB, tgtB].map
      (countVotes [tgtA, tgtA, tgtA, tgtB, tgtB])) = [3, 3, 3, 2, 2] by
    simp [countQuorumA_A, countQuorumA_B]]
  norm_num [List.foldl]

lemma countQuorumB_B : countVotes [tgtB, tgtB] tgtB = 2 := by
  simp [countVotes, List.countP_cons]

lemma maxQuorumB : maxVotes [tgtB, tgtB] = 2 := by
  unfold maxVotes
  rw [show ([tgtB, tgtB].map (countVotes [tgtB, tgtB])) = [2, 2] by
    simp [countQuorumB_B]]
  norm_num [List.foldl]

lemma quorumA_eval :
    updatePodBarrage podsQuorumA [tgtA, tgtB] (false, none) = (true, some tgtA) := by
  have hfilter : podsQuorumA.filter (fun p => p.alive) = podsQuorumA := by
    simp [podsQuorumA, podA, podB]
  simp only [updatePodBarrage]
  rw [if_neg (by rw [hfilter]; simp [podsQuorumA] : ¬ podsQuorumA.filter (fun p => p.alive) = [])]
  rw [votesQuorumA, maxQuorumA, hfilter]
  rw [if_pos (by simp : ¬ ([tgtA, tgtA, tgtA, tgtB, tgtB] : List CTarget) = [])]
  rw [if_pos (by norm_num [podsQuorumA] :
    ((3 : ℕ) : ℚ) / ((podsQuorumA.length : ℕ) : ℚ) ≥ 6 / 10)]
  rw [List.find?_cons_of_pos _ (by simp [countQuorumA_A])]
  rfl

lemma quorumB_eval :
    updatePodBarrage podsQuorumB [tgtB] (false, none) = (false, none) := by
  have hfilter : podsQuorumB.filter (fun p => p.alive) = podsQuorumB := by
    simp [podsQuorumB, podB, podN]
  simp only [updatePodBarrage]
  rw [if_neg (by rw [hfilter]; simp [podsQuorumB] : ¬ podsQuorumB.filter (fun p => p.alive) = [])]
  rw [votesQuorumB, maxQuorumB, hfilter]
  rw [if_pos (by simp : ¬ ([tgtB, tgtB] : List CTarget) = [])]
  rw [if_neg (by norm_num [podsQuorumB] :
    ¬ (((2 : ℕ) : ℚ) / ((podsQuorumB.length : ℕ) : ℚ) ≥ 6 / 10))]
  rfl

/-- C2: per-frame pod group vote.  (i) A live pod nominates its assigned
target when that target is alive, and otherwise the closest alive target
within its perception radius (none when there is none).  (ii) Votes are
tallied over the whole live pod population: the result flag always mirrors
the selected target; a selected target is a most-voted nominee holding at
least 3/5 of the live pods; when the most-voted nominee reaches the 0.6
fraction a target is selected, and below it the result is `(false, none)`.
(iii) Concretely: 5 live pods with 3 votes for A yield `(true, A)`; 5 live
pods with only 2 votes for B yield `(false, none)`. -/
theorem c2_pod_barrage_quorum :
    (∀ (p : PodV) (targets : List CTarget) (t : CTarget),
        p.target = some t → t.alive = true → vote_for_target p targets = some t) ∧
    (∀ (p : PodV) (targets : List CTarget),
        (p.target = none ∨ ∃ t0, p.target = some t0 ∧ t0.alive = false) →
        (vote_for_target p targets = none →
          ∀ t ∈ targets, t.alive = true →
            ¬ Vec2.distance p.pos t.pos < p.perception_radius) ∧
        (∀ t, vote_for_target p targets = some t →
          t ∈ targets ∧ t.alive = true ∧
          Vec2.distance p.pos t.pos < p.perception_radius ∧
          ∀ t' ∈ targets, t'.alive = true →
            Vec2.distance p.pos t'.pos < p.perception_radius →
            Vec2.distance p.pos t.pos ≤ Vec2.distance p.pos t'.pos)) ∧
    (∀ (pods : List PodV) (targets : List CTarget) (prev : Bool × Option CTarget),
        pods.filter (fun p => p.alive) ≠ [] →
        (updatePodBarrage pods targets prev).1 =
          (updatePodBarrage pods targets prev).2.isSome ∧
        (∀ t, (updatePodBarrage pods targets prev).2 = some t →
          t ∈ (pods.filter (fun p => p.alive)).filterMap
                (fun p => vote_for_target p targets) ∧
          countVotes ((pods.filter (fun p => p.alive)).filterMap
            (fun p => vote_for_target p targets)) t =
            maxVotes ((pods.filter (fun p => p.alive)).filterMap
              (fun p => vote_for_target p targets)) ∧
          (∀ t', countVotes ((pods.filter (fun p => p.alive)).filterMap
              (fun p => vote_for_target p targets)) t' ≤
            countVotes ((pods.filter (fun p => p.alive)).filterMap
              (fun p => vote_for_target p targets)) t) ∧
          3 * (pods.filter (fun p => p.alive)).length ≤
            5 * countVotes ((pods.filter (fun p => p.alive)).filterMap
              (fun p => vote_for_target p targets)) t) ∧
        ((pods.filter (fun p => p.alive)).filterMap
            (fun p => vote_for_target p targets) ≠ [] →
          3 * (pods.filter (fun p => p.alive)).length ≤
            5 * maxVotes ((pods.filter (fun p => p.alive)).filterMap
              (fun p => vote_for_target p targets)) →
          ∃ t, (updatePodBarrage pods targets prev).2 = some t ∧
            (updatePodBarrage pods targets prev).1 = true) ∧
        (5 * maxVotes ((pods.filter (fun p => p.alive)).filterMap
            (fun p => vote_for_target p targets)) <
            3 * (pods.filter (fun p => p.alive)).length →
          updatePodBarrage pods targets prev = (false, none))) ∧
    updatePodBarrage podsQuorumA [tgtA, tgtB] (false, none) = (true, some tgtA) ∧
    updatePodBarrage podsQuorumB [tgtB] (false, none) = (false, none) := by
  refine ⟨?_, ?_, ?_, quorumA_eval, quorumB_eval⟩
  · intro p targets t h hal
    simp [vote_for_target, h, hal]
  · intro p targets h
    rw [vote_for_target_else p targets h]
    exact voteClosest_spec p targets
  · intro pods targets prev hne
    have hNpos : 0 < (pods.filter (fun p => p.alive)).length :=
      List.length_pos.mpr hne
    have hupd : updatePodBarrage pods targets prev =
        ((if ((pods.filter (fun p => p.alive)).filterMap
              (fun p => vote_for_target p targets)) ≠ [] then
            if (maxVotes ((pods.filter (fun p => p.alive)).filterMap
                  (fun p => vote_for_target p targets)) : ℚ) /
                (((pods.filter (fun p => p.alive)).length : ℕ) : ℚ) ≥ 6 / 10 then
              ((pods.filter (fun p => p.alive)).filterMap
                (fun p => vote_for_target p targets)).find?
                (fun t => decide (countVotes ((pods.filter (fun p => p.alive)).filterMap
                  (fun p => vote_for_target p targets)) t =
                  maxVotes ((pods.filter (fun p => p.alive)).filterMap
                    (fun p => vote_for_target p targets))))
            else none
          else none).isSome,
         (if ((pods.filter (fun p => p.alive)).filterMap
              (fun p => vote_for_target p targets)) ≠ [] then
            if (maxVotes ((pods.filter (fun p => p.alive)).filterMap
                  (fun p => vote_for_target p targets)) : ℚ) /
                (((pods.filter (fun p => p.alive)).length : ℕ) : ℚ) ≥ 6 / 10 then
              ((pods.filter (fun p => p.alive)).filterMap
                (fun p => vote_for_target p targets)).find?
                (fun t => decide (countVotes ((pods.filter (fun p => p.alive)).filterMap
                  (fun p => vote_for_target p targets)) t =
                  maxVotes ((pods.filter (fun p => p.alive)).filterMap
                    (fun p => vote_for_target p targets))))
            else none
          else none)) := by
      simp only [updatePodBarrage]
      rw [if_neg hne]
    rw [hupd]
    generalize hV : (pods.filter (fun p => p.alive)).filterMap
      (fun p => vote_for_target p targets) = V
    generalize hN : (pods.filter (fun p => p.alive)).length = N at hNpos ⊢
    by_cases hv : V = []
    · rw [if_neg (not_not_intro hv)]
      refine ⟨rfl, ?_, ?_, ?_⟩
      · intro t ht
        exact absurd ht (by simp)
      · intro hv'
        exact absurd hv hv'
      · intro _
        rfl
    · rw [if_pos hv]
      by_cases hth : (maxVotes V : ℚ) / ((N : ℕ) : ℚ) ≥ 6 / 10
      · rw [if_pos hth]
        have hnat : 3 * N ≤ 5 * maxVotes V := (quorum_threshold_iff _ _ hNpos).mp hth
        refine ⟨rfl, ?_, ?_, ?_⟩
        · intro t ht
          simp only at ht
          have hmem := List.mem_of_find?_eq_some ht
          have hpred := List.find?_some ht
          have hcnt : countVotes V t = maxVotes V := of_decide_eq_true hpred
          refine ⟨hmem, hcnt, ?_, ?_⟩
          · intro t'
            rw [hcnt]
            exact countVotes_le_maxVotes V t'
          · rw [hcnt]
            exact hnat
        · intro _ _
          obtain ⟨t0, hmem0, hcnt0⟩ := maxVotes_attained V hv
          have hsome : (V.find? (fun t => decide (countVotes V t = maxVotes V))).isSome := by
            rw [List.find?_isSome]
            exact ⟨t0, hmem0, by simp [hcnt0]⟩
          obtain ⟨t, hfind⟩ := Option.isSome_iff_exists.mp hsome
          exact ⟨t, hfind, by simp [hfind]⟩
        · intro hlt
          omega
      · rw [if_neg hth]
        have hnotnat : ¬ 3 * N ≤ 5 * maxVotes V :=
          fun h => hth ((quorum_threshold_iff _ _ hNpos).mpr h)
        refine ⟨rfl, ?_, ?_, ?_⟩
        · intro t ht
          exact absurd ht (by simp)
        · intro _ hnat
          exact absurd hnat hnotnat
        · intro _
          rfl

/-- Witness for C2's tally part, at the 3-of-5 quorum scenario. -/
theorem c2_pod_barrage_quorum_witness :
    (updatePodBarrage podsQuorumA [tgtA, tgtB] (false, none)).1 =
      (updatePodBarrage podsQuorumA [tgtA, tgtB] (false, none)).2.isSome :=
  (c2_pod_barrage_quorum.2.2.1 podsQuorumA [tgtA, tgtB] (false, none)
    (by simp [podsQuorumA, podA, podB])).1

/-!
`SwarmAgent.process_messages` from src/swarm/swarm_agent.py.  A message of
the `Message`-object shape carries a `msg_type` string, an optional
`target_pos` (absent ≙ no `target_pos` attribute) and an optional `target`
reference (absent ≙ no `target` attribute or a falsy one).  The kind checks
are the Python substring tests on the lowercased type string.
-/

/-- ASCII lowercasing of one character (`str.lower()` on the ASCII message
type strings of the repo). -/
def charLower (c : Char) : Char :=
  if 65 ≤ c.toNat ∧ c.toNat ≤ 90 then Char.ofNat (c.toNat + 32) else c

/-- Substring test on the lowercased string: `pat in s.lower()`. -/
def containsSubLower (s pat : String) : Bool :=
  (List.range (s.length + 1)).any
    (fun i => pat.toList.isPrefixOf ((s.toList.map charLower).drop i))

/-- `'target' in msg_type_str.lower() or 'location' in msg_type_str.lower()` -/
def isTargetKind (msg_type_str : String) : Bool :=
  containsSubLower msg_type_str "target" || containsSubLower msg_type_str "location"

/-- `'attack' in msg_type_str.lower()` -/
def isAttackKind (msg_type_str : String) : Bool :=
  containsSubLower msg_type_str "attack"

/-- A queued message. -/
structure CMessage where
  msg_type : String
  target_pos : Option Vec2
  target : Option CTarget

/-- The recipient agent, projected onto the fields `process_messages`
reads and writes. -/
structure MAgent where
  target : Option CTarget
  target_position : Option Vec2
  aggressive : Bool
  aggressive_timeout : ℝ
  attack_priority : ℤ
  state : String
  messages : List CMessage

/-- The position-matching search: the first known target that is alive and
within the 50 px tolerance of the reported position. -/
noncomputable def findTargetNear : List CTarget → Vec2 → Option CTarget
  | [], _ => none
  | t :: rest, tp =>
    if t.alive = true ∧ Vec2.distance t.pos tp < 50 then some t
    else findTargetNear rest tp

/-- The body of the message loop of `process_messages`, for one message. -/
noncomputable def processMessage (targets_list : List CTarget) (a : MAgent)
    (message : CMessage) : MAgent :=
  if isTargetKind message.msg_type = true then
    match message.target_pos with
    | some tp =>
      if targets_list ≠ [] then
        let a1 : MAgent := { a with target_position := some tp }
        let a2 : MAgent :=
          match message.target with
          | some mt => { a1 with target := some mt }
          | none =>
            match findTargetNear targets_list tp with
            | some t => { a1 with target := some t }
            | none => a1
        if a2.target ≠ none then
          { a2 with aggressive := true, aggressive_timeout := 25,
                    attack_priority := 8, state := "attacking" }
        else a2
      else a
    | none => a
  else if isAttackKind message.msg_type = true then
    { a with aggressive := true, attack_priority := max a.attack_priority 9,
             state := "attacking" }
  else a

/-- `SwarmAgent.process_messages`: iterate over a copy of the queue,
removing each processed message, so the queue ends empty. -/
noncomputable def process_messages (a : MAgent) (targets_list : List CTarget) : MAgent :=
  if a.messages = [] then a
  else { a.messages.foldl (processMessage targets_list) a with messages := [] }

lemma findTargetNear_cons (t : CTarget) (rest : List CTarget) (tp : Vec2) :
    findTargetNear (t :: rest) tp =
      if t.alive = true ∧ Vec2.distance t.pos tp < 50 then some t
      else findTargetNear rest tp := rfl

lemma findTargetNear_spec (targets : List CTarget) (tp : Vec2) :
    (∀ t, findTargetNear targets tp = some t →
        t ∈ targets ∧ t.alive = true ∧ Vec2.distance t.pos tp < 50) ∧
    (findTargetNear targets tp = none →
        ∀ t ∈ targets, ¬ (t.alive = true ∧ Vec2.distance t.pos tp < 50)) := by
  induction targets with
  | nil => exact ⟨fun t h => absurd h (by simp [findTargetNear]), fun _ t ht => absurd ht (by simp)⟩
  | cons u rest ih =>
    by_cases hc : u.alive = true ∧ Vec2.distance u.pos tp < 50
    · constructor
      · intro t h
        rw [findTargetNear_cons, if_pos hc] at h
        have : u = t := by simpa using h
        subst this
        exact ⟨List.mem_cons_self _ _, hc.1, hc.2⟩
      · intro h
        rw [findTargetNear_cons, if_pos hc] at h
        exact absurd h (by simp)
    · have hred : findTargetNear (u :: rest) tp = findTargetNear rest tp := by
        rw [findTargetNear_cons, if_neg hc]
      constructor
      · intro t h
        rw [hred] at h
        obtain ⟨hm, ha, hd⟩ := ih.1 t h
        exact ⟨List.mem_cons_of_mem _ hm, ha, hd⟩
      · intro h t ht
        rw [hred] at h
        rcases List.mem_cons.mp ht with rfl | ht
        · exact hc
        · exact ih.2 h t ht

/-- A dead target referenced directly by a message. -/
noncomputable def deadT : CTarget := ⟨5, false, ⟨1, 1⟩⟩

/-- An alive known target sitting exactly at the reported position. -/
noncomputable def aliveT : CTarget := ⟨6, true, Vec2.zero⟩

/-- A target-kind message referencing the dead target, reporting a position
that matches the alive target exactly. -/
noncomputable def msgDead : CMessage := ⟨"target_found", some Vec2.zero, some deadT⟩

/-- A fresh agent with that one message queued. -/
noncomputable def agentM0 : MAgent := ⟨none, none, false, 0, 0, "idle", [msgDead]⟩

lemma distance_self (a : Vec2) : Vec2.distance a a = 0 := by
  simp [Vec2.distance]

/-- C3, counterexample: the code adopts `message.target` without checking
aliveness.  With a dead referenced target and an alive known target exactly
at the reported position (well within the 50 px tolerance), the recipient
ends up with the dead referenced target, not the matching alive one the
claim prescribes. -/
theorem c3_message_counterexample :
    (process_messages agentM0 [aliveT]).target = some deadT ∧
    deadT.alive = false ∧
    aliveT.alive = true ∧
    Vec2.distance aliveT.pos Vec2.zero < 50 ∧
    (process_messages agentM0 [aliveT]).target ≠ some aliveT := by
  have hkind : isTargetKind "target_found" = true := by decide
  have hres : (process_messages agentM0 [aliveT]).target = some deadT := by
    unfold process_messages
    rw [if_neg (by simp [agentM0] : ¬ agentM0.messages = [])]
    show ({ List.foldl (processMessage [aliveT]) agentM0 agentM0.messages with
      messages := [] } : MAgent).target = some deadT
    have : agentM0.messages = [msgDead] := rfl
    rw [this]
    simp only [List.foldl_cons, List.foldl_nil]
    unfold processMessage
    rw [show msgDead.msg_type = "target_found" from rfl, if_pos hkind]
    simp [msgDead]
  refine ⟨hres, rfl, rfl, ?_, ?_⟩
  · rw [show aliveT.pos = Vec2.zero from rfl, distance_self]
    norm_num
  · rw [hres]
    simp [deadT, aliveT]

/-- C3, amended: a target-kind message with a reported position (given a
non-empty known-target list) causes the recipient to adopt the referenced
target whenever the message carries one — regardless of its aliveness;
only when no target is referenced does it search the known targets for an
alive one within 50 px of the reported position; on any successful
adoption the recipient sets `aggressive = true`, `aggressive_timeout = 25`
and `attack_priority = 8`; when no alive target matches and none is
referenced, the `target` field is unchanged; and after one processing pass
the message queue is empty. -/
theorem c3_message_adoption_amended :
    (∀ (targets : List CTarget) (a : MAgent) (m : CMessage) (tp : Vec2) (mt : CTarget),
        isTargetKind m.msg_type = true → m.target_pos = some tp → targets ≠ [] →
        m.target = some mt →
        (processMessage targets a m).target = some mt ∧
        (processMessage targets a m).aggressive = true ∧
        (processMessage targets a m).aggressive_timeout = 25 ∧
        (processMessage targets a m).attack_priority = 8) ∧
    (∀ (targets : List CTarget) (a : MAgent) (m : CMessage) (tp : Vec2),
        isTargetKind m.msg_type = true → m.target_pos = some tp → targets ≠ [] →
        m.target = none →
        (∀ t, findTargetNear targets tp = some t →
          t ∈ targets ∧ t.alive = true ∧ Vec2.distance t.pos tp < 50 ∧
          (processMessage targets a m).target = some t ∧
          (processMessage targets a m).aggressive = true ∧
          (processMessage targets a m).aggressive_timeout = 25 ∧
          (processMessage targets a m).attack_priority = 8) ∧
        (findTargetNear targets tp = none →
          (∀ t ∈ targets, ¬ (t.alive = true ∧ Vec2.distance t.pos tp < 50)) ∧
          (processMessage targets a m).target = a.target)) ∧
    (∀ (a : MAgent) (targets : List CTarget),
        (process_messages a targets).messages = []) := by
  refine ⟨?_, ?_, ?_⟩
  · intro targets a m tp mt hkind hpos hne htgt
    simp [processMessage, hpos, htgt, hkind, hne]
  · intro targets a m tp hkind hpos hne htgt
    constructor
    · intro t hfind
      obtain ⟨hm, ha, hd⟩ := (findTargetNear_spec targets tp).1 t hfind
      refine ⟨hm, ha, hd, ?_⟩
      simp [processMessage, hpos, htgt, hkind, hne, hfind]
    · intro hfind
      refine ⟨(findTargetNear_spec targets tp).2 hfind, ?_⟩
      by_cases hat : a.target = none
      · simp [processMessage, hpos, htgt, hkind, hne, hfind, hat]
      · simp [processMessage, hpos, htgt, hkind, hne, hfind, hat]
  · intro a targets
    unfold process_messages
    split_ifs with h
    · exact h
    · rfl

/-- Witness for C3's amended theorem: the dead referenced target is adopted
at the concrete scenario of the counterexample. -/
theorem c3_message_adoption_amended_witness :
    (processMessage [aliveT] agentM0 msgDead).target = some deadT :=
  (c3_message_adoption_amended.1 [aliveT] agentM0 msgDead Vec2.zero deadT
    (by decide) rfl (by simp) rfl).1

end SwarmSim
